import Mathlib

/-!
Verification development for the P2Poker replicated poker engine.

The definitions below are a shallow embedding of the Go sources:
`internal/engine/types.go` (latest revision, the one carrying
`LastRaiseSize`), the hand evaluator and `ResolveShowdown`
(`eval.go`/`showdown.go`), the card text codec
(`internal/engine/card_json.go`), and the table replica
(`internal/table/util.go`, `snapshot.go`, `takeover.go`, `apply.go`).

Go `int64` chip quantities are modelled as `Int` (the quantities in all
properties stay far below 2^63, so wrap-around is never exercised);
Go `uint64` counters (`seq`, epochs, the lamport clock) are modelled as
`Nat`.  Go maps keyed by player id are modelled as association lists:
`findSeat` reads the first binding and `adjustSeat` rewrites the first
binding, which agrees with Go map semantics whenever keys are unique
(Go maps cannot hold a key twice).  Engine methods mutate the receiver
in place and separately return an `error`; they are embedded as
functions returning the (possibly partially mutated, exactly as in the
source) state together with `Option String` for the error.

The seeded deck shuffle (`NewDeck` driven by Go's `math/rand` seeded
from an FNV hash of the action id) is abstracted: functions that deal a
fresh deck receive the shuffled deck as an argument (at the table layer,
as a function of the action id).  No claim concerns the shuffle itself.
-/

namespace PP

/-- A playing card: rank 2..14 (14 = ace), suit 0..3
(clubs, diamonds, hearts, spades), as in `engine.Card`. -/
structure Card where
  rank : Nat
  suit : Nat
deriving DecidableEq, Repr

/-- The 52-card deck in construction order, as built by `NewDeck`
before the Fisher-Yates pass: suits clubs..spades, ranks 2..14. -/
def newDeckUnshuffled : List Card :=
  (List.range 4).flatMap (fun s => (List.range 13).map (fun r => Card.mk (r + 2) s))

/-- Betting phase, as in `engine.Phase`. -/
inductive Phase where
  | preflop
  | flop
  | turn
  | river
  | showdown
deriving DecidableEq, Repr

/-- One seat at the table, as in `engine.Seat`. -/
structure Seat where
  player : String
  stack : Int
  committed : Int
  inHand : Bool
  allIn : Bool
  folded : Bool
deriving DecidableEq, Repr

/-- Live engine state, as in `engine.State`. -/
structure State where
  smallBlind : Int
  bigBlind : Int
  dealerIdx : Nat
  order : List String
  turnIdx : Nat
  phase : Phase
  pot : Int
  seats : List (String × Seat)
  deck : List Card
  board : List Card
  holes : List (String × List Card)
  currentBet : Int
  actorsToAct : Int
  lastRaiseSize : Int
  handActive : Bool
deriving DecidableEq, Repr

/-- Go map read `s.Seats[p]` (first binding of the association list). -/
def findSeat (seats : List (String × Seat)) (p : String) : Option Seat :=
  match seats with
  | [] => none
  | (q, st) :: rest => if q = p then some st else findSeat rest p

/-- Go in-place mutation of the seat struct behind `s.Seats[p]`:
rewrites the first binding of `p`. -/
def adjustSeat (seats : List (String × Seat)) (p : String) (f : Seat → Seat) :
    List (String × Seat) :=
  match seats with
  | [] => []
  | (q, st) :: rest =>
    if q = p then (q, f st) :: rest else (q, st) :: adjustSeat rest p f

/-- Sum of all stacks (`sum over s.Seats of seat.Stack`). -/
def sumStacks (s : State) : Int :=
  (s.seats.map (fun pr => pr.2.stack)).sum

/-- `CurrentPlayer`: `""` when nobody is seated, else `s.Order[s.TurnIdx]`. -/
def currentPlayer (s : State) : String :=
  if s.order.length = 0 then "" else s.order.getD s.turnIdx ""

/-- `eligible`: seated, in hand, not folded, not all-in. -/
def eligible (s : State) (pid : String) : Bool :=
  match findSeat s.seats pid with
  | some st => st.inHand && !st.folded && !st.allIn
  | none => false

/-- `countNeedToAct`: eligible seats that still owe action this street. -/
def countNeedToAct (s : State) : Int :=
  if s.order.length = 0 then 0
  else
    s.order.foldl
      (fun acc pid =>
        match findSeat s.seats pid with
        | none => acc
        | some st =>
          if st.inHand && !st.folded && !st.allIn then
            if s.currentBet = 0 then acc + 1
            else if st.committed < s.currentBet then acc + 1
            else acc
          else acc)
      0

/-- `RoundClosed`: no hand, or nobody left to act, or at most one eligible seat. -/
def RoundClosed (s : State) : Bool :=
  if !s.handActive then false
  else
    let elig := (s.order.filter (fun pid => eligible s pid)).length
    s.actorsToAct ≤ 0 || elig ≤ 1

/-- One step of `advanceTurn`'s scan loop, with the remaining iteration
count explicit (the Go loop runs at most `len(s.Order)` times). -/
def advanceTurnAux (s : State) : Nat → State
  | 0 => s
  | n + 1 =>
    let ti := (s.turnIdx + 1) % s.order.length
    let s' := { s with turnIdx := ti }
    match findSeat s'.seats (s'.order.getD ti "") with
    | some st =>
      if st.inHand && !st.folded && !st.allIn then s' else advanceTurnAux s' n
    | none => advanceTurnAux s' n

/-- `advanceTurn`: rotate `TurnIdx` forward to the next eligible seat
(or all the way around, leaving it unchanged, when none exists). -/
def advanceTurn (s : State) : State :=
  if s.order.length = 0 then s else advanceTurnAux s s.order.length

/-- `ensureTurn` as a proposition: it is `p`'s turn. -/
def isTurn (s : State) (p : String) : Prop := currentPlayer s = p

instance (s : State) (p : String) : Decidable (isTurn s p) := by
  unfold isTurn; infer_instance

/-- `postBlind`: zero stacks are marked all-in with no contribution;
short stacks pay what they have and go all-in; otherwise the full blind
moves from stack to pot. -/
def postBlind (s : State) (p : String) (amt : Int) : State :=
  match findSeat s.seats p with
  | none => s
  | some seat =>
    if seat.stack ≤ 0 then
      { s with seats := adjustSeat s.seats p (fun st => { st with allIn := true }) }
    else
      let pay := if seat.stack < amt then seat.stack else amt
      let goesAllIn := seat.stack < amt
      { s with
        seats := adjustSeat s.seats p (fun st =>
          { st with
            stack := st.stack - pay
            committed := st.committed + pay
            allIn := if goesAllIn then true else st.allIn })
        pot := s.pot + pay }

/-- Deal two hole cards to each in-hand, non-folded seat in seat order
(`StartHand`'s dealing loop); underflow aborts with the Go error,
keeping the partial state. -/
def dealHoles (s : State) : List String → State × Option String
  | [] => (s, none)
  | pid :: rest =>
    match findSeat s.seats pid with
    | none => dealHoles s rest
    | some st =>
      if st.inHand && !st.folded then
        match s.deck with
        | c1 :: c2 :: deckRest =>
          dealHoles
            { s with holes := s.holes ++ [(pid, [c1, c2])], deck := deckRest } rest
        | _ => (s, some "deck underflow dealing holes")
      else dealHoles s rest

/-- `StartHand`, with the freshly shuffled deck passed in place of the
seeded `NewDeck(r)` call. -/
def StartHand (s : State) (deck : List Card) : State × Option String :=
  if s.order.length < 2 then (s, some "need at least 2 players")
  else
    let s1 :=
      { s with
        pot := 0
        seats := s.seats.map (fun (pr : String × Seat) =>
          (pr.1, { pr.2 with committed := 0, inHand := true, folded := false, allIn := false }))
        handActive := true
        dealerIdx := (s.dealerIdx + 1) % s.order.length }
    let sbIdx := (s1.dealerIdx + 1) % s1.order.length
    let bbIdx := (s1.dealerIdx + 2) % s1.order.length
    let s2 := postBlind s1 (s1.order.getD sbIdx "") s1.smallBlind
    let s3 := postBlind s2 (s2.order.getD bbIdx "") s2.bigBlind
    let s4 :=
      { s3 with
        turnIdx := (bbIdx + 1) % s3.order.length
        phase := Phase.preflop
        currentBet := s3.bigBlind
        lastRaiseSize := s3.bigBlind }
    let s5 := { s4 with actorsToAct := countNeedToAct s4 }
    let s6 := { s5 with deck := deck, board := [], holes := [] }
    dealHoles s6 s6.order

/-- `resetCommittedAndSetTurnFromDealer`. -/
def resetCommittedAndSetTurnFromDealer (s : State) : State :=
  let s1 :=
    { s with
      seats := s.seats.map (fun (pr : String × Seat) => (pr.1, { pr.2 with committed := 0 })) }
  if s1.order.length = 0 then
    { s1 with turnIdx := 0, currentBet := 0, lastRaiseSize := s1.bigBlind, actorsToAct := 0 }
  else
    let s2 :=
      { s1 with
        turnIdx := (s1.dealerIdx + 1) % s1.order.length
        currentBet := 0
        lastRaiseSize := s1.bigBlind }
    { s2 with actorsToAct := countNeedToAct s2 }

/-- `AdvancePhase`: deal street cards, reset the round, move the phase
marker; river → showdown only flips the phase and clears `HandActive`. -/
def AdvancePhase (s : State) : State :=
  match s.phase with
  | Phase.preflop =>
    let s1 :=
      if 3 ≤ s.deck.length then
        { s with board := s.board ++ s.deck.take 3, deck := s.deck.drop 3 }
      else s
    { resetCommittedAndSetTurnFromDealer s1 with phase := Phase.flop }
  | Phase.flop =>
    let s1 :=
      if 1 ≤ s.deck.length then
        { s with board := s.board ++ s.deck.take 1, deck := s.deck.drop 1 }
      else s
    { resetCommittedAndSetTurnFromDealer s1 with phase := Phase.turn }
  | Phase.turn =>
    let s1 :=
      if 1 ≤ s.deck.length then
        { s with board := s.board ++ s.deck.take 1, deck := s.deck.drop 1 }
      else s
    { resetCommittedAndSetTurnFromDealer s1 with phase := Phase.river }
  | Phase.river => { s with phase := Phase.showdown, handActive := false }
  | Phase.showdown => s

/-- `Bet` (the revision with min-bet and existing-bet guards). -/
def Bet (s : State) (p : String) (amt : Int) : State × Option String :=
  match findSeat s.seats p with
  | none => (s, some "unknown player")
  | some st =>
    if currentPlayer s ≠ p then (s, some "not player's turn")
    else if 0 < s.currentBet then (s, some "cannot bet; a bet already exists (use raise)")
    else if amt < s.bigBlind then (s, some "bet must be at least the big blind")
    else if amt ≤ 0 then (s, some "bet must be > 0")
    else if st.stack < amt then (s, some "insufficient chips")
    else
      let s1 :=
        { s with
          seats := adjustSeat s.seats p (fun q =>
            { q with stack := q.stack - amt, committed := q.committed + amt })
          pot := s.pot + amt }
      let s2 := { s1 with currentBet := st.committed + amt, lastRaiseSize := amt }
      (advanceTurn { s2 with actorsToAct := countNeedToAct s2 }, none)

/-- `Check` (the revision allowing a free check when no live bet exists). -/
def Check (s : State) (p : String) : State × Option String :=
  match findSeat s.seats p with
  | none => (s, some "unknown player")
  | some st =>
    if currentPlayer s ≠ p then (s, some "not player's turn")
    else if s.currentBet = 0 then
      (advanceTurn { s with actorsToAct := s.actorsToAct - 1 }, none)
    else if st.committed ≠ s.currentBet then
      (s, some "cannot check; unmatched to current bet")
    else (advanceTurn { s with actorsToAct := s.actorsToAct - 1 }, none)

/-- `Fold`. -/
def Fold (s : State) (p : String) : State × Option String :=
  match findSeat s.seats p with
  | none => (s, some "unknown player")
  | some st =>
    if currentPlayer s ≠ p then (s, some "not player's turn")
    else
      let s1 :=
        if 0 < s.currentBet ∧ st.committed < s.currentBet then
          { s with actorsToAct := s.actorsToAct - 1 }
        else s
      let s2 :=
        { s1 with
          seats := adjustSeat s1.seats p (fun q => { q with folded := true, inHand := false }) }
      (advanceTurn s2, none)

/-- `Call`: full call when the stack covers the deficit, otherwise a
short all-in call that neither moves `CurrentBet`/`LastRaiseSize` nor
reopens action. -/
def Call (s : State) (p : String) : State × Option String :=
  match findSeat s.seats p with
  | none => (s, some "unknown player")
  | some st =>
    if currentPlayer s ≠ p then (s, some "not player's turn")
    else if s.currentBet = 0 then (s, some "nothing to call")
    else
      let need := s.currentBet - st.committed
      if need ≤ 0 then (s, some "already matched")
      else if need ≤ st.stack then
        let s1 :=
          { s with
            seats := adjustSeat s.seats p (fun q =>
              { q with stack := q.stack - need, committed := q.committed + need })
            pot := s.pot + need }
        (advanceTurn { s1 with actorsToAct := s1.actorsToAct - 1 }, none)
      else
        let allin := st.stack
        if allin ≤ 0 then (s, some "insufficient chips")
        else
          let s1 :=
            { s with
              seats := adjustSeat s.seats p (fun q =>
                { q with stack := 0, allIn := true, committed := q.committed + allin })
              pot := s.pot + allin }
          (advanceTurn { s1 with actorsToAct := s1.actorsToAct - 1 }, none)

/-- `Raise p add` with `add` the raise-by increment: full raise when it
meets the min-raise and the stack covers call+raise; short all-in shove
otherwise (which never reopens action); below-min non-all-in rejected.
The short path mirrors the source exactly, including the partial
mutation kept when the shove remainder is non-positive. -/
def Raise (s : State) (p : String) (add : Int) : State × Option String :=
  match findSeat s.seats p with
  | none => (s, some "unknown player")
  | some st =>
    if currentPlayer s ≠ p then (s, some "not player's turn")
    else if s.currentBet = 0 then (s, some "nothing to raise (use bet)")
    else if add ≤ 0 then (s, some "raise must be > 0")
    else
      let need := if st.committed < s.currentBet then s.currentBet - st.committed else 0
      let total := need + add
      if s.lastRaiseSize ≤ add ∧ total ≤ st.stack then
        let s1 :=
          { s with
            seats := adjustSeat s.seats p (fun q =>
              { q with stack := q.stack - total, committed := q.committed + total })
            pot := s.pot + total }
        let s2 := { s1 with currentBet := st.committed + total, lastRaiseSize := add }
        (advanceTurn { s2 with actorsToAct := countNeedToAct s2 }, none)
      else if st.stack < total then
        let callPart := min st.stack need
        let s1 :=
          if 0 < callPart then
            { s with
              seats := adjustSeat s.seats p (fun q =>
                { q with stack := q.stack - callPart, committed := q.committed + callPart })
              pot := s.pot + callPart }
          else s
        let remain := if 0 < callPart then st.stack - callPart else st.stack
        if remain ≤ 0 then (s1, some "insufficient chips")
        else
          let s2 :=
            { s1 with
              seats := adjustSeat s1.seats p (fun q =>
                { q with stack := 0, allIn := true, committed := q.committed + remain })
              pot := s1.pot + remain }
          let s3 :=
            if st.committed + callPart < s.currentBet then
              { s2 with actorsToAct := s2.actorsToAct - 1 }
            else if 0 < need then { s2 with actorsToAct := s2.actorsToAct - 1 }
            else s2
          (advanceTurn s3, none)
      else (s, some "raise too small (below min-raise)")

/-! ### Hand evaluation (`BestHand7` and helpers) -/

/-- Hand category encoded as in the source's `Category` constants:
0 high card, 1 one pair, 2 two pair, 3 trips, 4 straight, 5 flush,
6 full house, 7 quads, 8 straight flush. -/
def CatHighCard : Nat := 0

def CatOnePair : Nat := 1

def CatTwoPair : Nat := 2

def CatTrips : Nat := 3

def CatStraight : Nat := 4

def CatFlush : Nat := 5

def CatFullHouse : Nat := 6

def CatQuads : Nat := 7

def CatStraightFlush : Nat := 8

/-- Comparable value of a 5-card hand (`engine.HandValue`): category plus
the five tie-break ranks in priority order. -/
structure HandValue where
  cat : Nat
  ranks : List Nat
deriving DecidableEq, Repr

/-- The kicker-vector comparison loop of `HandValue.Less`. -/
def ranksLessB : List Nat → List Nat → Bool
  | x :: xs, y :: ys => if x ≠ y then decide (x < y) else ranksLessB xs ys
  | _, _ => false

/-- `HandValue.Less`: category first, then the kicker vector. -/
def HandValue.lessB (hv other : HandValue) : Bool :=
  if hv.cat ≠ other.cat then decide (hv.cat < other.cat) else ranksLessB hv.ranks other.ranks

/-- The `fill` helper: category plus kickers padded to five ranks. -/
def fillHV (cat : Nat) (ks : List Nat) : HandValue :=
  HandValue.mk cat ((ks ++ List.replicate 5 0).take 5)

/-- `[5]Card` zero value. -/
def zeroCard : Card := Card.mk 0 0

/-- Pad a chosen-card list to the fixed five slots (Go's `[5]Card`). -/
def padTo5 (cards : List Card) : List Card :=
  (cards ++ List.replicate 5 zeroCard).take 5

/-- Ranks 14 down to 2, the scan order used throughout the evaluator. -/
def descRanks : List Nat := (List.range 13).map (fun i => 14 - i)

/-- The consecutive-run scan of `straightTop` (r counts down from 14;
`run` is the current run length; result is the run's top rank or 0). -/
def straightScan (h : Nat → Bool) : Nat → Nat → Nat
  | 0, _ => 0
  | r + 1, run =>
    if r + 1 < 2 then 0
    else if h (r + 1) then
      if run + 1 = 5 then r + 5 else straightScan h r (run + 1)
    else straightScan h r 0

/-- `straightTop`: wheel (A-5) first, then the highest 5-run. -/
def straightTop (h : Nat → Bool) : Nat :=
  if h 14 && h 5 && h 4 && h 3 && h 2 then 5 else straightScan h 14 0

/-- The group ordering of `BestHand7` (higher count first, then higher rank). -/
def groupLess (g1 g2 : Nat × Nat) : Bool :=
  if g1.2 ≠ g2.2 then decide (g2.2 < g1.2) else decide (g2.1 < g1.1)

/-- Ordered insert for the group sort. -/
def insertGroup (g : Nat × Nat) : List (Nat × Nat) → List (Nat × Nat)
  | [] => [g]
  | h :: t => if groupLess g h then g :: h :: t else h :: insertGroup g t

/-- Sorting the (rank, count) groups; on the duplicate-free rank list this
yields the unique order `sort.SliceStable` produces. -/
def sortGroups : List (Nat × Nat) → List (Nat × Nat)
  | [] => []
  | h :: t => insertGroup h (sortGroups t)

/-- Ordered insert for the flush-suit rank sort (descending by rank). -/
def insertCardDesc (c : Card) : List Card → List Card
  | [] => [c]
  | h :: t => if h.rank < c.rank then c :: h :: t else h :: insertCardDesc c t

/-- Descending-rank sort of the flush suit's cards (`sort.Slice`); ranks
within one suit are distinct for any state dealt from a real deck, so the
order is uniquely determined. -/
def sortCardsDescByRank : List Card → List Card
  | [] => []
  | h :: t => insertCardDesc h (sortCardsDescByRank t)

/-- `highestExcept`. -/
def highestExcept (rankCount : Nat → Nat) (except : Nat) : Nat :=
  ((descRanks.filter (fun r => r ≠ except ∧ 0 < rankCount r)).headD 0)

/-- `topKicker`. -/
def topKicker (rankCount : Nat → Nat) (ex1 ex2 : Nat) : Nat :=
  ((descRanks.filter (fun r => r ≠ ex1 ∧ r ≠ ex2 ∧ 0 < rankCount r)).headD 0)

/-- `topKickers` with `n = 2`. -/
def topKickers2 (rankCount : Nat → Nat) (ex : Nat) : Nat × Nat :=
  let out := (descRanks.filter (fun r => r ≠ ex ∧ 0 < rankCount r)).take 2
  (out.getD 0 0, out.getD 1 0)

/-- `topKickers3`. -/
def topKickers3 (rankCount : Nat → Nat) (ex : Nat) : Nat × Nat × Nat :=
  let out := (descRanks.filter (fun r => r ≠ ex ∧ 0 < rankCount r)).take 3
  (out.getD 0 0, out.getD 1 0, out.getD 2 0)

/-- `topNRanks` (with the always-`nil` exclude list dropped). -/
def topNRanks (rankCount : Nat → Nat) (n : Nat) : List Nat :=
  let out := (descRanks.filter (fun r => 0 < rankCount r)).take n
  out ++ List.replicate (n - out.length) 0

/-- `collectOfRank`: the first `want` cards of rank `r` in input order. -/
def collectOfRank (all : List Card) (r want : Nat) : List Card :=
  (all.filter (fun c => c.rank = r)).take want

/-- `kickerCard`: the card of rank `r` with the highest suit (zero card
when absent, matching Go's zero value). -/
def kickerCard (all : List Card) (r : Nat) : Card :=
  (all.foldl
    (fun best c =>
      if c.rank = r then
        match best with
        | none => some c
        | some b => if b.suit < c.suit then some c else best
      else best)
    none).getD zeroCard

/-- The per-want card pick of `pickStraight` (unused indices only,
highest suit wins, earlier index on ties). -/
def pickBestIdx (ie : List (Nat × Card)) (used : List Nat) (want : Nat) :
    Option (Nat × Card) :=
  ie.foldl
    (fun best ic =>
      if ic.1 ∈ used then best
      else if ic.2.rank = want then
        match best with
        | none => some ic
        | some bc => if bc.2.suit < ic.2.suit then some ic else best
      else best)
    none

/-- The needed-rank loop of `pickStraight`, threading used indices. -/
def pickStraightLoop (ie : List (Nat × Card)) : List Nat → List Nat → List Card
  | [], _ => []
  | want :: rest, used =>
    match pickBestIdx ie used want with
    | some (i, c) => c :: pickStraightLoop ie rest (i :: used)
    | none => pickStraightLoop ie rest used

/-- `pickStraight`: the five cards of the straight topped by `top`
(wheel when `top = 5`), preferring the highest suit per rank. -/
def pickStraight (all : List Card) (top : Nat) : List Card :=
  let need := if top = 5 then [5, 4, 3, 2, 14] else [top, top - 1, top - 2, top - 3, top - 4]
  padTo5 (pickStraightLoop all.enum need [])

/-- `BestHand7`: best 5-card value from board plus holes, with the five
chosen cards. -/
def BestHand7 (board holes : List Card) : HandValue × List Card :=
  let all := board ++ holes
  let rankCount := fun r => (all.filter (fun c => c.rank = r)).length
  let suitCount := fun su => (all.filter (fun c => c.suit = su)).length
  let bySuit := fun su => all.filter (fun c => c.suit = su)
  let hasR := fun r => decide (0 < rankCount r)
  let groups := sortGroups (descRanks.filterMap
    (fun r => if 0 < rankCount r then some (r, rankCount r) else none))
  let g0 := groups.getD 0 (0, 0)
  let g1 := groups.getD 1 (0, 0)
  match ([0, 1, 2, 3].find? (fun su => 5 ≤ suitCount su)) with
  | some fs =>
    let suitHas := fun r => decide (0 < ((bySuit fs).filter (fun c => c.rank = r)).length)
    let top := straightTop suitHas
    if top ≠ 0 then (fillHV CatStraightFlush [top], pickStraight (bySuit fs) top)
    else
      let five := padTo5 ((sortCardsDescByRank (bySuit fs)).take 5)
      (fillHV CatFlush (five.map (fun c => c.rank)), five)
  | none =>
    if 0 < groups.length ∧ g0.2 = 4 then
      let quad := g0.1
      let kicker := highestExcept rankCount quad
      (fillHV CatQuads [quad, kicker],
        padTo5 ((collectOfRank all quad 4).take 4 ++ [kickerCard all kicker]))
    else if 1 < groups.length ∧ g0.2 = 3 ∧
        (((groups.drop 1).find? (fun g => 2 ≤ g.2)).map Prod.fst).getD 0 ≠ 0 then
      let trip1 := g0.1
      let pairOrTrip := (((groups.drop 1).find? (fun g => 2 ≤ g.2)).map Prod.fst).getD 0
      (fillHV CatFullHouse [trip1, pairOrTrip],
        padTo5 (collectOfRank all trip1 3 ++ collectOfRank all pairOrTrip 2))
    else if straightTop hasR ≠ 0 then
      let top := straightTop hasR
      (fillHV CatStraight [top], pickStraight all top)
    else if 0 < groups.length ∧ g0.2 = 3 then
      let trip := g0.1
      let ks := topKickers2 rankCount trip
      (fillHV CatTrips [trip, ks.1, ks.2],
        padTo5 (collectOfRank all trip 3 ++ [kickerCard all ks.1, kickerCard all ks.2]))
    else if 1 < groups.length ∧ g0.2 = 2 ∧ g1.2 = 2 then
      let high := g0.1
      let low := g1.1
      let k := topKicker rankCount high low
      (fillHV CatTwoPair [high, low, k],
        padTo5 (collectOfRank all high 2 ++ collectOfRank all low 2 ++ [kickerCard all k]))
    else if 0 < groups.length ∧ g0.2 = 2 then
      let pr := g0.1
      let ks := topKickers3 rankCount pr
      (fillHV CatOnePair [pr, ks.1, ks.2.1, ks.2.2],
        padTo5 (collectOfRank all pr 2 ++
          [kickerCard all ks.1, kickerCard all ks.2.1, kickerCard all ks.2.2]))
    else
      let hi := topNRanks rankCount 5
      (fillHV CatHighCard hi, hi.map (fun r => kickerCard all r))

/-! ### Showdown resolution (`ResolveShowdown`) -/

/-- One showdown winner entry. -/
structure ShowdownWinner where
  player : String
  value : HandValue
  cards : List Card
deriving DecidableEq, Repr

/-- `ShowdownSummary`. -/
structure ShowdownSummary where
  winners : List ShowdownWinner
  payoutPer : Int
  remainder : Int
  totalPayout : Int
deriving DecidableEq, Repr

/-- Go map read `s.Holes[pid]`, whose zero value is the empty slice. -/
def findHoles (holes : List (String × List Card)) (pid : String) : List Card :=
  match holes with
  | [] => []
  | (q, hc) :: rest => if q = pid then hc else findHoles rest pid

/-- The eligible-player evaluation pass of `ResolveShowdown` (both arms of
its hole-count branch run the same `BestHand7` call). -/
def evalsOf (s : State) : List (String × HandValue × List Card) :=
  s.order.filterMap (fun pid =>
    match findSeat s.seats pid with
    | none => none
    | some st =>
      if st.inHand && !st.folded then
        some (pid, BestHand7 s.board (findHoles s.holes pid))
      else none)

/-- The best-value fold of `ResolveShowdown`. -/
def bestVal (b : HandValue) : List (String × HandValue × List Card) → HandValue
  | [] => b
  | e :: rest => bestVal (if b.lessB e.2.1 then e.2.1 else b) rest

/-- The winner set: all evaluated seats whose value ties the maximum. -/
def winnersOf (s : State) : List ShowdownWinner :=
  match evalsOf s with
  | [] => []
  | e0 :: rest =>
    let best := bestVal e0.2.1 rest
    ((e0 :: rest).filter (fun e => !best.lessB e.2.1 && !e.2.1.lessB best)).map
      (fun e => ShowdownWinner.mk e.1 e.2.1 e.2.2)

/-- `posInOrder` (missing players map to `1 << 30`). -/
def posInOrderAux : List String → String → Nat → Nat
  | [], _, _ => 1 <<< 30
  | q :: rest, pid, i => if q = pid then i else posInOrderAux rest pid (i + 1)

/-- `posInOrder`. -/
def posInOrder (order : List String) (pid : String) : Nat :=
  posInOrderAux order pid 0

/-- Stable insert for the final winner sort by seat position. -/
def insertWinner (ord : List String) (w : ShowdownWinner) :
    List ShowdownWinner → List ShowdownWinner
  | [] => [w]
  | y :: ys =>
    if posInOrder ord y.player < posInOrder ord w.player then y :: insertWinner ord w ys
    else w :: y :: ys

/-- The stable seat-order sort of the returned winner list. -/
def sortWinners (ord : List String) : List ShowdownWinner → List ShowdownWinner
  | [] => []
  | w :: ws => insertWinner ord w (sortWinners ord ws)

/-- The remainder-distribution walk: one extra chip per winner met, in
walk order, while chips remain; a winner momentarily missing a seat is
skipped without consuming a chip, as in the source. -/
def distribRem (seats : List (String × Seat)) :
    List String → List String → Int → List (String × Seat)
  | [], _, _ => seats
  | pid :: rest, wset, rem =>
    if rem ≤ 0 then seats
    else if pid ∈ wset then
      match findSeat seats pid with
      | some _ =>
        distribRem (adjustSeat seats pid (fun st => { st with stack := st.stack + 1 }))
          rest wset (rem - 1)
      | none => distribRem seats rest wset rem
    else distribRem seats rest wset rem

/-- The remainder walk order: seat order starting left of the dealer. -/
def remWalk (s : State) : List String :=
  let start := (s.dealerIdx + 1) % s.order.length
  (List.range s.order.length).map (fun i => s.order.getD ((start + i) % s.order.length) "")

/-- `ResolveShowdown`: evaluate the still-in-hand seats, split the pot
among the tied best values (`per` each plus the remainder walk), zero the
pot and end the hand.  With no eligible seat the pot is simply dropped
and reported as the summary's remainder. -/
def ResolveShowdown (s : State) : State × ShowdownSummary :=
  match evalsOf s with
  | [] =>
    ({ s with pot := 0, handActive := false },
      ShowdownSummary.mk [] 0 s.pot (0 + s.pot))
  | _ :: _ =>
    let winners := winnersOf s
    let nw : Int := winners.length
    let per := if 0 < s.pot ∧ 0 < nw then s.pot / nw else 0
    let rem := if 0 < s.pot ∧ 0 < nw then s.pot % nw else 0
    let seats1 := winners.foldl
      (fun seats w => adjustSeat seats w.player (fun st => { st with stack := st.stack + per }))
      s.seats
    let winSet := winners.map (fun w => w.player)
    let seats2 := if 0 < rem then distribRem seats1 (remWalk s) winSet rem else seats1
    let total := per * nw + (s.pot - per * nw)
    ({ s with seats := seats2, pot := 0, handActive := false },
      ShowdownSummary.mk (sortWinners s.order winners) per 0 total)

/-! ### Engine snapshot (`Snapshot` / `RestoreFromSnapshot`) -/

/-- `engine.EngineSnapshot`: the serializable public view (no deck, no
hole cards, no betting-round counters). -/
structure EngineSnapshot where
  smallBlind : Int
  bigBlind : Int
  dealerIdx : Nat
  order : List String
  turnIdx : Nat
  phase : Phase
  pot : Int
  board : List Card
  seats : List (String × Seat)
deriving DecidableEq, Repr

/-- `State.Snapshot`. -/
def Snapshot (s : State) : EngineSnapshot :=
  EngineSnapshot.mk s.smallBlind s.bigBlind s.dealerIdx s.order s.turnIdx s.phase s.pot
    s.board s.seats

/-- `State.RestoreFromSnapshot`: installs the snapshot fields, leaving
deck, holes and the betting-round counters as they were. -/
def RestoreFromSnapshot (s : State) (ss : EngineSnapshot) : State :=
  { s with
    smallBlind := ss.smallBlind
    bigBlind := ss.bigBlind
    dealerIdx := ss.dealerIdx
    order := ss.order
    turnIdx := ss.turnIdx
    phase := ss.phase
    pot := ss.pot
    board := ss.board
    seats := ss.seats }

/-! ### Card text codec (`card_json.go`) -/

/-- ASCII lower-casing as done byte-wise in the source. -/
def lowerChar (c : Char) : Char :=
  if 'A' ≤ c ∧ c ≤ 'Z' then Char.ofNat (c.toNat + 32) else c

/-- ASCII upper-casing as done byte-wise in the source. -/
def upperChar (c : Char) : Char :=
  if 'a' ≤ c ∧ c ≤ 'z' then Char.ofNat (c.toNat - 32) else c

/-- `rankToChar`. -/
def rankToChar : Nat → Option Char
  | 2 => some '2'
  | 3 => some '3'
  | 4 => some '4'
  | 5 => some '5'
  | 6 => some '6'
  | 7 => some '7'
  | 8 => some '8'
  | 9 => some '9'
  | 10 => some 'T'
  | 11 => some 'J'
  | 12 => some 'Q'
  | 13 => some 'K'
  | 14 => some 'A'
  | _ => none

/-- `suitToChar`. -/
def suitToChar : Nat → Option Char
  | 0 => some 'c'
  | 1 => some 'd'
  | 2 => some 'h'
  | 3 => some 's'
  | _ => none

/-- The `Rank` constants of `engine` (`RankTwo` .. `RankAce`). -/
def RankTwo : Nat := 2

def RankThree : Nat := 3

def RankFour : Nat := 4

def RankFive : Nat := 5

def RankSix : Nat := 6

def RankSeven : Nat := 7

def RankEight : Nat := 8

def RankNine : Nat := 9

def RankTen : Nat := 10

def RankJack : Nat := 11

def RankQueen : Nat := 12

def RankKing : Nat := 13

def RankAce : Nat := 14

/-- The `Suit` constants of `engine` (`SuitClubs` .. `SuitSpades`). -/
def SuitClubs : Nat := 0

def SuitDiamonds : Nat := 1

def SuitHearts : Nat := 2

def SuitSpades : Nat := 3

/-- `charToRank` (normalizes to upper case first). -/
def charToRank (ch : Char) : Option Nat :=
  match upperChar ch with
  | '2' => some RankTwo
  | '3' => some RankThree
  | '4' => some RankFour
  | '5' => some RankFive
  | '6' => some RankSix
  | '7' => some RankSeven
  | '8' => some RankEight
  | '9' => some RankNine
  | 'T' => some RankTen
  | 'J' => some RankJack
  | 'Q' => some RankQueen
  | 'K' => some RankKing
  | 'A' => some RankAce
  | _ => none

/-- The suit-char switch of `UnmarshalJSON` (normalizes to lower case). -/
def charToSuit (ch : Char) : Option Nat :=
  match lowerChar ch with
  | 'c' => some SuitClubs
  | 'd' => some SuitDiamonds
  | 'h' => some SuitHearts
  | 's' => some SuitSpades
  | _ => none

/-- `Card.MarshalJSON`'s payload: the two-character text form. -/
def marshalCard (c : Card) : Option String :=
  match rankToChar c.rank, suitToChar c.suit with
  | some r, some s => some (String.mk [r, s])
  | _, _ => none

/-- `Card.UnmarshalJSON`'s payload parser on an exact two-character
string (the surrounding JSON quoting and whitespace trim are external). -/
def unmarshalCard (str : String) : Option Card :=
  match str.toList with
  | [rCh, sCh] =>
    match charToRank rCh, charToSuit sCh with
    | some r, some su => some (Card.mk r su)
    | _, _ => none
  | _ => none

/-! ### Protocol types and the table replica
(`internal/protocol`, `internal/table`) -/

/-- `protocol.ActionType`. -/
inductive ActionType where
  | createTable
  | join
  | leave
  | startHand
  | bet
  | call
  | raise
  | check
  | fold
  | kick
  | advance
  | showdown
deriving DecidableEq, Repr

/-- `protocol.Action`; `meta` models the string-valued entries actually
read from the `map[string]any` (only `target`). -/
structure Action where
  id : String
  type : ActionType
  playerID : String
  amount : Int
  meta : List (String × String)
deriving DecidableEq, Repr

/-- The `meta["target"]` string read of the kick arm. -/
def metaTarget (meta : List (String × String)) : Option String :=
  match meta with
  | [] => none
  | (k, v) :: rest => if k = "target" then some v else metaTarget rest

/-- `protocol.MsgType`. -/
inductive MsgType where
  | propose
  | commit
  | snapshot
  | stateQuery
  | heartbeat
deriving DecidableEq, Repr

/-- `types.TableConfig` (durations in milliseconds). -/
structure TableConfig where
  name : String
  minBuyin : Int
  smallBlind : Int
  bigBlind : Int
  authorityTick : Nat
  followerTO : Nat
deriving DecidableEq, Repr

/-- `protocol.TableSnapshot`; `engine` is the decoded engine payload
(`none` both for an absent payload and for one that fails to decode —
the source treats the two identically). -/
structure TableSnapshot where
  cfg : TableConfig
  seq : Nat
  epoch : Nat
  authority : String
  engine : Option EngineSnapshot
deriving DecidableEq, Repr

/-- `protocol.NetMessage` (`sender` is the Go field `From`; `from` is a
Lean keyword). -/
structure NetMessage where
  table : String
  sender : String
  type : MsgType
  epoch : Nat
  lamport : Nat
  seq : Nat
  action : Option Action
  state : Option TableSnapshot
deriving DecidableEq, Repr

/-- `table.Table`: the replica state owned by one table event loop
(the lamport clock the table points to is carried inline). -/
structure Table where
  id : String
  self : String
  cfg : TableConfig
  authority : Bool
  epoch : Nat
  clock : Nat
  seq : Nat
  log : List Action
  dedup : List String
  authorityID : String
  eng : State
  lastHeartbeat : Nat

/-- `Lamport.TickRemote`. -/
def tickRemote (clock remote : Nat) : Nat :=
  if clock ≤ remote then remote + 1 else clock + 1

/-- The impure inputs of a replica step: the seeded shuffle as a function
of the action id, the two random ids an authority may mint for
auto-committed `advance_phase`/`showdown` actions, and the wall clock. -/
structure Env where
  deckOf : String → List Card
  advId : String
  showId : String
  now : Nat

/-- `Sit`: create the seat and re-sort the order. -/
def Sit (s : State) (p : String) (buyin : Int) : State × Option String :=
  if (findSeat s.seats p).isSome then (s, some "already seated")
  else
    ({ s with
      seats := s.seats ++ [(p, Seat.mk p buyin 0 false false false)]
      order := List.mergeSort (s.order ++ [p]) (fun x y => decide (x ≤ y)) }, none)

/-- `Leave`: drop the seat, holes and order entry; clamp `TurnIdx`. -/
def Leave (s : State) (p : String) : State :=
  let s1 :=
    { s with
      seats := s.seats.filter (fun pr => pr.1 ≠ p)
      holes := s.holes.filter (fun pr => pr.1 ≠ p)
      order := s.order.filter (fun q => q ≠ p) }
  if s1.order.length ≤ s1.turnIdx then { s1 with turnIdx := 0 } else s1

/-- The raise-to conversion of the table's `ActRaise` arm: `a.Amount` is
a target bet level, converted to the engine's raise-by increment (or a
call when it does not exceed the current bet). -/
def raiseTo (e : State) (pid : String) (toAmt : Int) : State × Option String :=
  match findSeat e.seats pid with
  | none => (e, some "unknown player")
  | some st =>
    if toAmt ≤ e.currentBet then Call e pid
    else
      let additional := toAmt - st.committed
      if additional ≤ 0 then (e, none)
      else
        let needCall := if st.committed < e.currentBet then e.currentBet - st.committed else 0
        let raiseBy := additional - needCall
        if raiseBy ≤ 0 then Call e pid else Raise e pid raiseBy

/-- The engine mutation of the table's `apply` switch (all arms except
the table-level recursions handled in `applyA`). -/
def engSwitch (env : Env) (cfg : TableConfig) (a : Action) (e : State) :
    State × Option String :=
  match a.type with
  | ActionType.createTable => (e, none)
  | ActionType.join =>
    if (findSeat e.seats a.playerID).isSome then (e, none)
    else Sit e a.playerID cfg.minBuyin
  | ActionType.leave => (Leave e a.playerID, none)
  | ActionType.kick =>
    match metaTarget a.meta with
    | some tgt => (Leave e tgt, none)
    | none => (e, none)
  | ActionType.startHand => StartHand e (env.deckOf a.id)
  | ActionType.bet =>
    if e.currentBet = 0 then Bet e a.playerID a.amount else raiseTo e a.playerID a.amount
  | ActionType.check => Check e a.playerID
  | ActionType.fold => Fold e a.playerID
  | ActionType.call => Call e a.playerID
  | ActionType.raise => raiseTo e a.playerID a.amount
  | ActionType.advance => (AdvancePhase e, none)
  | ActionType.showdown => ((ResolveShowdown e).1, none)

/-- The commit message emitted by `commitAndBroadcast` (lamport and seq
read at emission time). -/
def commitMsg (t : Table) (a : Action) : NetMessage :=
  NetMessage.mk t.id t.self MsgType.commit t.epoch t.clock t.seq (some a) none

/-- The synthesized `showdown` action. -/
def showdownAction (id self : String) : Action :=
  Action.mk id ActionType.showdown self 0 []

/-- The synthesized `advance_phase` action. -/
def advanceAction (id self : String) : Action :=
  Action.mk id ActionType.advance self 0 []

/-- `commitAndBroadcast` specialized to a synthesized `showdown` action
(whose `apply` is `ResolveShowdown`; the auto-advance recheck is vacuous
because the hand is over). -/
def commitShowdown (t : Table) (id : String) : Table × List NetMessage :=
  if id ∈ t.dedup then (t, [])
  else
    let t1 := { t with seq := t.seq + 1 }
    let t2 := { t1 with eng := (ResolveShowdown t1.eng).1 }
    let a := showdownAction id t.self
    let t3 := { t2 with log := t2.log ++ [a], dedup := id :: t2.dedup, clock := t2.clock + 1 }
    (t3, [commitMsg t3 a])

/-- `commitAndBroadcast` specialized to a synthesized `advance_phase`
action.  As in the source, a nested `showdown` commit (fired inside
`apply` when the advance lands on showdown) is logged and emitted
*before* the enclosing advance commit. -/
def commitAdvance (t : Table) (idAdv idShow : String) : Table × List NetMessage :=
  if idAdv ∈ t.dedup then (t, [])
  else
    let t1 := { t with seq := t.seq + 1 }
    let e' := AdvancePhase t1.eng
    let t2 := { t1 with eng := e' }
    let r := if t2.authority ∧ e'.phase = Phase.showdown then commitShowdown t2 idShow else (t2, [])
    let a := advanceAction idAdv t.self
    let t4 := { r.1 with log := r.1.log ++ [a], dedup := idAdv :: r.1.dedup, clock := r.1.clock + 1 }
    (t4, r.2 ++ [commitMsg t4 a])

/-- The tail of `apply` shared by all non-early-return arms: on success,
an authority whose round just closed auto-commits an `advance_phase`. -/
def afterApply (env : Env) (t : Table) (r : State × Option String) :
    Table × List NetMessage :=
  let t2 := { t with eng := r.1 }
  match r.2 with
  | some _ => (t2, [])
  | none =>
    if t2.authority ∧ t2.eng.handActive ∧ RoundClosed t2.eng then
      commitAdvance t2 env.advId env.showId
    else (t2, [])

/-- The table's `apply`: engine mutation plus the authority's
auto-commit logic (`ActAdvance` fires a `showdown` commit when it lands
on the showdown phase; an already-seated `join` returns early). -/
def applyA (env : Env) (t : Table) (a : Action) : Table × List NetMessage :=
  match a.type with
  | ActionType.advance =>
    let e' := AdvancePhase t.eng
    let t2 := { t with eng := e' }
    if t2.authority ∧ e'.phase = Phase.showdown then commitShowdown t2 env.showId else (t2, [])
  | ActionType.join =>
    if (findSeat t.eng.seats a.playerID).isSome then (t, [])
    else afterApply env t (Sit t.eng a.playerID t.cfg.minBuyin)
  | _ => afterApply env t (engSwitch env t.cfg a t.eng)

/-- `commitAndBroadcast`. -/
def commitAndBroadcast (env : Env) (t : Table) (a : Action) : Table × List NetMessage :=
  if a.id ∈ t.dedup then (t, [])
  else
    let t1 := { t with seq := t.seq + 1 }
    let r := applyA env t1 a
    let t3 := { r.1 with log := r.1.log ++ [a], dedup := a.id :: r.1.dedup, clock := r.1.clock + 1 }
    (t3, r.2 ++ [commitMsg t3 a])

/-- The `state_query` emitted on a sequence mismatch. -/
def stateQueryMsg (t : Table) : NetMessage :=
  NetMessage.mk t.id t.self MsgType.stateQuery t.epoch t.clock 0 none none

/-- `applyCommit`: dedup first; then any sequence number other than
`seq + 1` (gap *or* stale) emits a `state_query` and drops the commit;
otherwise apply, advance `seq`, log and record the id. -/
def applyCommit (env : Env) (t : Table) (a : Action) (sq : Nat) : Table × List NetMessage :=
  if a.id ∈ t.dedup then (t, [])
  else if sq ≠ t.seq + 1 then
    let t1 := { t with clock := t.clock + 1 }
    (t1, [stateQueryMsg t1])
  else
    let t1 := { t with seq := sq }
    let r := applyA env t1 a
    ({ r.1 with log := r.1.log ++ [a], dedup := a.id :: r.1.dedup }, r.2)

/-- `Table.snapshot`: the outgoing snapshot always embeds the engine
payload. -/
def tableSnapshot (t : Table) : TableSnapshot :=
  TableSnapshot.mk t.cfg t.seq t.epoch t.authorityID (some (Snapshot t.eng))

/-- `installSnapshot`: adopt cfg/seq/epoch/authority from the snapshot;
restore the engine from the payload when present, else realign blinds. -/
def installSnapshot (t : Table) (ss : TableSnapshot) : Table :=
  { t with
    cfg := ss.cfg
    seq := ss.seq
    epoch := ss.epoch
    authorityID := ss.authority
    eng :=
      match ss.engine with
      | some es => RestoreFromSnapshot t.eng es
      | none =>
        { t.eng with smallBlind := ss.cfg.smallBlind, bigBlind := ss.cfg.bigBlind } }

/-- `sendSnapshotTo` (the target only selects the transport; the message
is a broadcast). -/
def sendSnapshotTo (t : Table) : Table × List NetMessage :=
  if !t.authority then (t, [])
  else
    let t1 := { t with clock := t.clock + 1 }
    (t1, [NetMessage.mk t.id t.self MsgType.snapshot t.epoch t1.clock 0 none
      (some (tableSnapshot t))])

/-- `sendHeartbeat`. -/
def sendHeartbeat (t : Table) : Table × List NetMessage :=
  if !t.authority then (t, [])
  else
    let t1 := { t with clock := t.clock + 1 }
    (t1, [NetMessage.mk t.id t.self MsgType.heartbeat t.epoch t1.clock t.seq none none])

/-- `isSmallestNodeID`. -/
def isSmallestNodeID (t : Table) : Bool :=
  t.authorityID = "" || decide (t.self < t.authorityID)

/-- `tryAuthorityTakeover` at wall time `now` (milliseconds). -/
def tryAuthorityTakeover (t : Table) (now : Nat) : Table × List NetMessage :=
  if t.authority then (t, [])
  else if now - t.lastHeartbeat < max t.cfg.followerTO 3000 then (t, [])
  else if !isSmallestNodeID t then (t, [])
  else
    let t1 := { t with authority := true, epoch := t.epoch + 1, authorityID := t.self }
    let r1 := sendHeartbeat t1
    let r2 := sendSnapshotTo r1.1
    (r2.1, r1.2 ++ r2.2)

/-- `onNet`: dispatch one inbound message, mirroring the source's guards
(epoch acceptance, kick authorization, sequence enforcement, authority
adoption, heartbeat bookkeeping). -/
def onNet (env : Env) (t : Table) (m : NetMessage) : Table × List NetMessage :=
  let t0 := { t with clock := tickRemote t.clock m.lamport }
  match m.type with
  | MsgType.propose =>
    if !t0.authority then (t0, [])
    else
      match m.action with
      | none => (t0, [])
      | some a =>
        if a.type = ActionType.kick ∧ m.sender ≠ t0.authorityID then (t0, [])
        else commitAndBroadcast env t0 a
  | MsgType.commit =>
    match m.action with
    | none => (t0, [])
    | some a =>
      if m.epoch < t0.epoch then (t0, [])
      else if a.type = ActionType.kick ∧ m.sender ≠ t0.authorityID then (t0, [])
      else
        let r := applyCommit env t0 a m.seq
        let t2 :=
          if r.1.epoch < m.epoch ∨ r.1.authorityID = "" then
            { r.1 with epoch := m.epoch, authorityID := m.sender }
          else r.1
        ({ t2 with lastHeartbeat := env.now }, r.2)
  | MsgType.snapshot =>
    match m.state with
    | none => (t0, [])
    | some ss =>
      if m.epoch < t0.epoch then (t0, [])
      else ({ installSnapshot t0 ss with lastHeartbeat := env.now }, [])
  | MsgType.heartbeat =>
    if m.epoch < t0.epoch then (t0, [])
    else ({ t0 with epoch := m.epoch, authorityID := m.sender, lastHeartbeat := env.now }, [])
  | MsgType.stateQuery => if t0.authority then sendSnapshotTo t0 else (t0, [])

/-! ### Basic lemmas about the seat association list -/

/-- Total chips sitting in stacks of a seat list. -/
def stacksSum (seats : List (String × Seat)) : Int :=
  (seats.map (fun pr => pr.2.stack)).sum

/-- Total chips in play: stacks plus pot. -/
def chips (s : State) : Int :=
  stacksSum s.seats + s.pot

theorem sumStacks_eq (s : State) : sumStacks s = stacksSum s.seats := rfl

theorem findSeat_mem {seats : List (String × Seat)} {p : String} {st : Seat}
    (h : findSeat seats p = some st) : (p, st) ∈ seats := by
  induction seats with
  | nil => simp [findSeat] at h
  | cons hd tl ih =>
    obtain ⟨q, st'⟩ := hd
    by_cases hq : q = p
    · subst hq
      simp [findSeat] at h
      simp [h]
    · simp [findSeat, hq] at h
      exact List.mem_cons_of_mem _ (ih h)

theorem adjustSeat_of_none {seats : List (String × Seat)} {p : String}
    (h : findSeat seats p = none) (f : Seat → Seat) : adjustSeat seats p f = seats := by
  induction seats with
  | nil => rfl
  | cons hd tl ih =>
    obtain ⟨q, st'⟩ := hd
    by_cases hq : q = p
    · subst hq; simp [findSeat] at h
    · simp [findSeat, hq] at h
      simp [adjustSeat, hq, ih h]

theorem findSeat_adjustSeat_self {seats : List (String × Seat)} {p : String} {st : Seat}
    (h : findSeat seats p = some st) (f : Seat → Seat) :
    findSeat (adjustSeat seats p f) p = some (f st) := by
  induction seats with
  | nil => simp [findSeat] at h
  | cons hd tl ih =>
    obtain ⟨q, st'⟩ := hd
    by_cases hq : q = p
    · subst hq
      simp [findSeat] at h
      subst h
      simp [adjustSeat, findSeat]
    · simp [findSeat, hq] at h
      simp [adjustSeat, findSeat, hq, ih h]

theorem findSeat_adjustSeat_ne {seats : List (String × Seat)} {p q : String}
    (hne : q ≠ p) (f : Seat → Seat) :
    findSeat (adjustSeat seats p f) q = findSeat seats q := by
  induction seats with
  | nil => rfl
  | cons hd tl ih =>
    obtain ⟨r, st'⟩ := hd
    have hpq : ¬ (p = q) := fun h => hne h.symm
    by_cases hr : r = p
    · have hrq : ¬ (r = q) := by rw [hr]; exact hpq
      simp [adjustSeat, findSeat, hr, hrq, hpq]
    · simp [adjustSeat, findSeat, hr, ih]

theorem isSome_findSeat_adjustSeat (seats : List (String × Seat)) (p q : String)
    (f : Seat → Seat) :
    (findSeat (adjustSeat seats p f) q).isSome = (findSeat seats q).isSome := by
  induction seats with
  | nil => rfl
  | cons hd tl ih =>
    obtain ⟨r, st'⟩ := hd
    by_cases hr : r = p
    · simp only [adjustSeat, if_pos hr, findSeat]
      by_cases hq : r = q
      · simp [hq]
      · simp [hq]
    · simp only [adjustSeat, if_neg hr, findSeat]
      by_cases hq : r = q
      · simp [hq]
      · simp [hq, ih]

theorem stacksSum_adjustSeat {seats : List (String × Seat)} {p : String} {st : Seat}
    (h : findSeat seats p = some st) (f : Seat → Seat) :
    stacksSum (adjustSeat seats p f) = stacksSum seats - st.stack + (f st).stack := by
  induction seats with
  | nil => simp [findSeat] at h
  | cons hd tl ih =>
    obtain ⟨q, st'⟩ := hd
    by_cases hq : q = p
    · subst hq
      simp [findSeat] at h
      subst h
      simp [adjustSeat, stacksSum]
      ring
    · simp [findSeat, hq] at h
      simp [adjustSeat, stacksSum, hq] at ih ⊢
      rw [ih h]
      ring

theorem stacksSum_map_seat (seats : List (String × Seat)) (f : Seat → Seat)
    (hf : ∀ st, (f st).stack = st.stack) :
    stacksSum (seats.map (fun pr => (pr.1, f pr.2))) = stacksSum seats := by
  induction seats with
  | nil => rfl
  | cons hd tl ih => simp [stacksSum, hf] at ih ⊢; omega

/-! ### `advanceTurn` only moves the turn index -/

theorem advanceTurnAux_shape (n : Nat) (s : State) :
    ∃ ti, advanceTurnAux s n = { s with turnIdx := ti } := by
  induction n generalizing s with
  | zero => exact ⟨s.turnIdx, rfl⟩
  | succ n ih =>
    simp only [advanceTurnAux]
    split
    · split
      · exact ⟨(s.turnIdx + 1) % s.order.length, rfl⟩
      · obtain ⟨ti, hti⟩ := ih { s with turnIdx := (s.turnIdx + 1) % s.order.length }
        exact ⟨ti, hti⟩
    · obtain ⟨ti, hti⟩ := ih { s with turnIdx := (s.turnIdx + 1) % s.order.length }
      exact ⟨ti, hti⟩

theorem advanceTurn_shape (s : State) :
    ∃ ti, advanceTurn s = { s with turnIdx := ti } := by
  unfold advanceTurn
  by_cases h : s.order.length = 0
  · exact ⟨s.turnIdx, by simp [h]⟩
  · obtain ⟨ti, hti⟩ := advanceTurnAux_shape s.order.length s
    exact ⟨ti, by simp [h, hti]⟩

theorem advanceTurn_seats (s : State) : (advanceTurn s).seats = s.seats := by
  obtain ⟨ti, h⟩ := advanceTurn_shape s; rw [h]

theorem advanceTurn_pot (s : State) : (advanceTurn s).pot = s.pot := by
  obtain ⟨ti, h⟩ := advanceTurn_shape s; rw [h]

theorem advanceTurn_currentBet (s : State) : (advanceTurn s).currentBet = s.currentBet := by
  obtain ⟨ti, h⟩ := advanceTurn_shape s; rw [h]

theorem advanceTurn_lastRaiseSize (s : State) :
    (advanceTurn s).lastRaiseSize = s.lastRaiseSize := by
  obtain ⟨ti, h⟩ := advanceTurn_shape s; rw [h]

theorem advanceTurn_actorsToAct (s : State) :
    (advanceTurn s).actorsToAct = s.actorsToAct := by
  obtain ⟨ti, h⟩ := advanceTurn_shape s; rw [h]

theorem advanceTurn_bigBlind (s : State) : (advanceTurn s).bigBlind = s.bigBlind := by
  obtain ⟨ti, h⟩ := advanceTurn_shape s; rw [h]

theorem advanceTurn_handActive (s : State) : (advanceTurn s).handActive = s.handActive := by
  obtain ⟨ti, h⟩ := advanceTurn_shape s; rw [h]

theorem chips_advanceTurn (s : State) : chips (advanceTurn s) = chips s := by
  obtain ⟨ti, h⟩ := advanceTurn_shape s; rw [h]; rfl

theorem advanceTurn_order (s : State) : (advanceTurn s).order = s.order := by
  obtain ⟨ti, h⟩ := advanceTurn_shape s; rw [h]

theorem countNeedToAct_congr (s t : State) (ho : s.order = t.order)
    (hs : s.seats = t.seats) (hc : s.currentBet = t.currentBet) :
    countNeedToAct s = countNeedToAct t := by
  unfold countNeedToAct
  rw [ho, hs, hc]

/-! ### Chip conservation of the individual engine operations -/

theorem chips_Bet (s : State) (p : String) (amt : Int) : chips (Bet s p amt).1 = chips s := by
  cases hfs : findSeat s.seats p with
  | none => simp [Bet, hfs]
  | some st =>
    simp only [Bet, hfs]
    split_ifs <;> try rfl
    simp only [chips, advanceTurn_seats, advanceTurn_pot, stacksSum_adjustSeat hfs]
    ring

theorem chips_Check (s : State) (p : String) : chips (Check s p).1 = chips s := by
  cases hfs : findSeat s.seats p with
  | none => simp [Check, hfs]
  | some st =>
    simp only [Check, hfs]
    split_ifs <;> simp [chips, advanceTurn_seats, advanceTurn_pot]

theorem chips_Fold (s : State) (p : String) : chips (Fold s p).1 = chips s := by
  cases hfs : findSeat s.seats p with
  | none => simp [Fold, hfs]
  | some st =>
    simp only [Fold, hfs]
    split_ifs with h1 h2 <;> try rfl
    all_goals
      simp only [chips, advanceTurn_seats, advanceTurn_pot]
      rw [stacksSum_adjustSeat (show findSeat s.seats p = some st by simpa using hfs)]
      ring

theorem chips_Call (s : State) (p : String) : chips (Call s p).1 = chips s := by
  cases hfs : findSeat s.seats p with
  | none => simp [Call, hfs]
  | some st =>
    simp only [Call, hfs]
    split_ifs <;> try rfl
    all_goals
      simp only [chips, advanceTurn_seats, advanceTurn_pot, stacksSum_adjustSeat hfs]
      ring

set_option maxHeartbeats 1000000 in
theorem chips_Raise (s : State) (p : String) (add : Int) :
    chips (Raise s p add).1 = chips s := by
  cases hfs : findSeat s.seats p with
  | none => simp [Raise, hfs]
  | some st =>
    unfold Raise
    rw [hfs]
    dsimp only
    by_cases hc1 : currentPlayer s ≠ p
    · simp only [if_pos hc1]
    · simp only [if_neg hc1]
      by_cases hc2 : s.currentBet = 0
      · simp only [if_pos hc2]
      · simp only [if_neg hc2]
        by_cases hc3 : add ≤ 0
        · simp only [if_pos hc3]
        · simp only [if_neg hc3]
          by_cases hc4 : s.lastRaiseSize ≤ add ∧
              (if st.committed < s.currentBet then s.currentBet - st.committed else 0) + add ≤
                st.stack
          · simp only [if_pos hc4]
            try dsimp only
            simp only [chips, advanceTurn_seats, advanceTurn_pot, stacksSum_adjustSeat hfs]
            ring
          · simp only [if_neg hc4]
            by_cases hc5 : st.stack <
                (if st.committed < s.currentBet then s.currentBet - st.committed else 0) + add
            · simp only [if_pos hc5]
              by_cases hc6 : (0 : Int) < min st.stack
                  (if st.committed < s.currentBet then s.currentBet - st.committed else 0)
              · simp only [if_pos hc6]
                by_cases hc7 : st.stack - min st.stack
                    (if st.committed < s.currentBet then s.currentBet - st.committed else 0) ≤ 0
                · simp only [if_pos hc7]
                  try dsimp only
                  simp only [chips, stacksSum_adjustSeat hfs]
                  ring
                · simp only [if_neg hc7]
                  try dsimp only
                  split_ifs <;>
                    (simp only [chips, advanceTurn_seats, advanceTurn_pot]
                     rw [stacksSum_adjustSeat (findSeat_adjustSeat_self hfs _)]
                     rw [stacksSum_adjustSeat hfs]
                     ring)
              · simp only [if_neg hc6]
                by_cases hc7 : st.stack ≤ (0 : Int)
                · simp only [if_pos hc7]
                · simp only [if_neg hc7]
                  try dsimp only
                  split_ifs <;>
                    (simp only [chips, advanceTurn_seats, advanceTurn_pot,
                      stacksSum_adjustSeat hfs]
                     ring)
            · simp only [if_neg hc5]

theorem stacksSum_resetSeats (seats : List (String × Seat)) :
    stacksSum (seats.map (fun pr => (pr.1, { pr.2 with committed := 0 }))) =
      stacksSum seats := by
  induction seats with
  | nil => rfl
  | cons hd tl ih =>
    simp only [stacksSum, List.map_cons, List.sum_cons] at ih ⊢
    omega

theorem stacksSum_startReset (seats : List (String × Seat)) :
    stacksSum (seats.map (fun pr =>
        (pr.1, { pr.2 with committed := 0, inHand := true, folded := false, allIn := false }))) =
      stacksSum seats := by
  induction seats with
  | nil => rfl
  | cons hd tl ih =>
    simp only [stacksSum, List.map_cons, List.sum_cons] at ih ⊢
    omega

theorem chips_resetCommitted (s : State) :
    chips (resetCommittedAndSetTurnFromDealer s) = chips s := by
  unfold resetCommittedAndSetTurnFromDealer
  dsimp only
  split_ifs <;>
    (simp only [chips]
     rw [stacksSum_resetSeats])

theorem chips_AdvancePhase (s : State) : chips (AdvancePhase s) = chips s := by
  have h1 : ∀ (x : State) (ph : Phase), chips { x with phase := ph } = chips x :=
    fun _ _ => rfl
  cases hp : s.phase <;> simp only [AdvancePhase, hp] <;> try dsimp only
  all_goals
    first
      | rfl
      | (split_ifs <;> rw [h1, chips_resetCommitted] <;> rfl)

theorem chips_postBlind (s : State) (p : String) (amt : Int) :
    chips (postBlind s p amt) = chips s := by
  cases hfs : findSeat s.seats p with
  | none => simp [postBlind, hfs]
  | some st =>
    simp only [postBlind, hfs]
    split_ifs <;> simp only [chips, stacksSum_adjustSeat hfs] <;> ring

/-- `chips_postBlind` with the projections exposed, for rewriting under
an unfolded `chips`. -/
theorem stacksSum_postBlind (s : State) (p : String) (amt : Int) :
    stacksSum (postBlind s p amt).seats + (postBlind s p amt).pot =
      stacksSum s.seats + s.pot :=
  chips_postBlind s p amt

theorem chips_dealHoles (s : State) (order : List String) :
    chips (dealHoles s order).1 = chips s := by
  induction order generalizing s with
  | nil => rfl
  | cons pid rest ih =>
    cases hfs : findSeat s.seats pid with
    | none => simp [dealHoles, hfs, ih]
    | some st =>
      simp only [dealHoles, hfs]
      split_ifs with h1
      · cases hdk : s.deck with
        | nil => simp
        | cons c1 d1 =>
          cases d1 with
          | nil => simp
          | cons c2 d2 => simpa [chips] using ih _
      · exact ih s

/-- `StartHand` moves blinds from stacks into the freshly zeroed pot:
afterwards `stacks + pot` equals the stack total before the hand. -/
theorem chips_StartHand (s : State) (deck : List Card) (h : 2 ≤ s.order.length) :
    chips (StartHand s deck).1 = stacksSum s.seats := by
  unfold StartHand
  rw [if_neg (by omega)]
  dsimp only
  rw [chips_dealHoles]
  simp only [chips]
  rw [stacksSum_postBlind, stacksSum_postBlind]
  dsimp only
  rw [stacksSum_startReset]
  ring

/-! ### Fields touched by `resetCommittedAndSetTurnFromDealer` -/

theorem resetCommitted_fields (s : State) :
    (∀ pr ∈ (resetCommittedAndSetTurnFromDealer s).seats, pr.2.committed = 0) ∧
    (resetCommittedAndSetTurnFromDealer s).currentBet = 0 ∧
    (resetCommittedAndSetTurnFromDealer s).lastRaiseSize = s.bigBlind := by
  unfold resetCommittedAndSetTurnFromDealer
  dsimp only
  split_ifs <;>
    refine ⟨?_, rfl, rfl⟩ <;>
    · intro pr hpr
      simp only [List.mem_map] at hpr
      obtain ⟨pr', _, rfl⟩ := hpr
      rfl

/-! ### Claim theorems -/

/-- C9.  Engine snapshot round-trip: restoring `snapshot(e)` into any
prior engine state reproduces `e` on the whole observable public game —
blinds, dealer index, order, turn index, phase, pot, board and every
seat's fields (deck and hole cards are not part of the snapshot). -/
theorem engine_snapshot_roundtrip (s0 e : State) :
    (RestoreFromSnapshot s0 (Snapshot e)).smallBlind = e.smallBlind ∧
    (RestoreFromSnapshot s0 (Snapshot e)).bigBlind = e.bigBlind ∧
    (RestoreFromSnapshot s0 (Snapshot e)).dealerIdx = e.dealerIdx ∧
    (RestoreFromSnapshot s0 (Snapshot e)).order = e.order ∧
    (RestoreFromSnapshot s0 (Snapshot e)).turnIdx = e.turnIdx ∧
    (RestoreFromSnapshot s0 (Snapshot e)).phase = e.phase ∧
    (RestoreFromSnapshot s0 (Snapshot e)).pot = e.pot ∧
    (RestoreFromSnapshot s0 (Snapshot e)).board = e.board ∧
    (RestoreFromSnapshot s0 (Snapshot e)).seats = e.seats ∧
    ∀ p, findSeat (RestoreFromSnapshot s0 (Snapshot e)).seats p = findSeat e.seats p :=
  ⟨rfl, rfl, rfl, rfl, rfl, rfl, rfl, rfl, rfl, fun _ => rfl⟩

/-- A river state with live commitments, exercising the river→showdown
arm of `AdvancePhase`. -/
def c3River : State :=
  { smallBlind := 5, bigBlind := 10, dealerIdx := 0, order := ["a", "b"], turnIdx := 0,
    phase := Phase.river, pot := 20,
    seats := [("a", Seat.mk "a" 90 5 true false false), ("b", Seat.mk "b" 90 5 true false false)],
    deck := [], board := [], holes := [], currentBet := 5, actorsToAct := 0,
    lastRaiseSize := 10, handActive := true }

/-- C3 counterexample.  On a river state with an active hand and live
commitments, `advance_phase` moves to showdown *without* clearing
`committed` or `current_bet`: seat `a` still shows `committed = 5` and
`current_bet` is still 5 afterwards, refuting the claim for the
river→showdown transition. -/
theorem advancePhase_river_keeps_commitments :
    c3River.handActive = true ∧
    (AdvancePhase c3River).phase = Phase.showdown ∧
    findSeat (AdvancePhase c3River).seats "a" = some (Seat.mk "a" 90 5 true false false) ∧
    (AdvancePhase c3River).currentBet = 5 ∧
    ¬ ((∀ pr ∈ (AdvancePhase c3River).seats, pr.2.committed = 0) ∧
        (AdvancePhase c3River).currentBet = 0) := by
  refine ⟨rfl, rfl, rfl, rfl, ?_⟩
  intro h
  have := h.2
  simp [AdvancePhase, c3River] at this

/-- C3 (amended).  `advance_phase` on an active hand clears every seat's
`committed`, sets `current_bet = 0` and resets `last_raise_size` to the
big blind for the preflop→flop, flop→turn and turn→river transitions;
the river→showdown transition instead leaves seats, `current_bet` and
`last_raise_size` untouched, only setting the phase to showdown and
clearing `hand_active`. -/
theorem advancePhase_round_reset (s : State) (hactive : s.handActive = true) :
    ((s.phase = Phase.preflop ∨ s.phase = Phase.flop ∨ s.phase = Phase.turn) →
      (∀ pr ∈ (AdvancePhase s).seats, pr.2.committed = 0) ∧
      (AdvancePhase s).currentBet = 0 ∧
      (AdvancePhase s).lastRaiseSize = s.bigBlind) ∧
    (s.phase = Phase.river →
      (AdvancePhase s).seats = s.seats ∧
      (AdvancePhase s).currentBet = s.currentBet ∧
      (AdvancePhase s).lastRaiseSize = s.lastRaiseSize ∧
      (AdvancePhase s).phase = Phase.showdown ∧
      (AdvancePhase s).handActive = false) := by
  constructor
  · intro hph
    have key : ∀ x : State, x.bigBlind = s.bigBlind →
        (∀ pr ∈ (resetCommittedAndSetTurnFromDealer x).seats, pr.2.committed = 0) ∧
        (resetCommittedAndSetTurnFromDealer x).currentBet = 0 ∧
        (resetCommittedAndSetTurnFromDealer x).lastRaiseSize = s.bigBlind := by
      intro x hx
      obtain ⟨h1, h2, h3⟩ := resetCommitted_fields x
      exact ⟨h1, h2, hx ▸ h3⟩
    rcases hph with hp | hp | hp <;>
      · simp only [AdvancePhase, hp]
        try dsimp only
        split_ifs <;> exact key _ rfl
  · intro hp
    simp [AdvancePhase, hp]

/-- C3 witness: the amended theorem applied to a concrete flop state. -/
def c3Flop : State :=
  { c3River with phase := Phase.flop }

theorem advancePhase_round_reset_witness :
    c3Flop.handActive = true ∧
    (AdvancePhase c3Flop).currentBet = 0 ∧
    (AdvancePhase c3Flop).lastRaiseSize = c3Flop.bigBlind :=
  ⟨rfl, ((advancePhase_round_reset c3Flop rfl).1 (Or.inr (Or.inl rfl))).2.1,
    ((advancePhase_round_reset c3Flop rfl).1 (Or.inr (Or.inl rfl))).2.2⟩

/-- C10.  When no seat is both in hand and unfolded, `ResolveShowdown`
returns no winners, zeroes the pot, clears `hand_active`, leaves every
stack untouched, and reports the whole undistributed prior pot as the
summary's `Remainder` (the pot is discarded, not carried or refunded). -/
theorem resolveShowdown_no_contenders (s : State)
    (h : ∀ pr ∈ s.seats, pr.2.inHand = true → pr.2.folded = true) :
    (ResolveShowdown s).1 = { s with pot := 0, handActive := false } ∧
    (ResolveShowdown s).1.seats = s.seats ∧
    (ResolveShowdown s).2.winners = [] ∧
    (ResolveShowdown s).2.payoutPer = 0 ∧
    (ResolveShowdown s).2.remainder = s.pot ∧
    (ResolveShowdown s).2.totalPayout = s.pot := by
  have hev : evalsOf s = [] := by
    unfold evalsOf
    rw [List.filterMap_eq_nil_iff]
    intro pid hpid
    cases hfs : findSeat s.seats pid with
    | none => simp [hfs]
    | some st =>
      have hst := h _ (findSeat_mem hfs)
      simp only [hfs]
      rw [if_neg]
      intro hc
      rcases Bool.and_eq_true_iff.mp hc with ⟨hin, hnf⟩
      rw [hst hin] at hnf
      simp at hnf
  simp [ResolveShowdown, hev]

/-- C10 witness: a two-seat state where everyone has folded. -/
def c10State : State :=
  { c3River with
    seats := [("a", Seat.mk "a" 90 5 false false true), ("b", Seat.mk "b" 90 5 false false true)] }

theorem resolveShowdown_no_contenders_witness :
    (∀ pr ∈ c10State.seats, pr.2.inHand = true → pr.2.folded = true) ∧
    (ResolveShowdown c10State).2.remainder = c10State.pot :=
  ⟨by decide, (resolveShowdown_no_contenders c10State (by decide)).2.2.2.2.1⟩

/-- C8.  Card text round-trip on every card of the 52-card deck: the
encoder emits the canonical two characters (an upper-case or digit rank
character and a lower-case suit character), and the parser maps the
encoding — in any mixture of upper and lower case — back to exactly the
original card. -/
theorem card_text_roundtrip (c : Card) (h : c ∈ newDeckUnshuffled) :
    (marshalCard c).isSome = true ∧
    ∀ rc ∈ (rankToChar c.rank).toList, ∀ sc ∈ (suitToChar c.suit).toList,
      marshalCard c = some (String.mk [rc, sc]) ∧
      (rc.isUpper ∨ ('0' ≤ rc ∧ rc ≤ '9')) ∧ sc.isLower ∧
      unmarshalCard (String.mk [rc, sc]) = some c ∧
      unmarshalCard (String.mk [lowerChar rc, sc]) = some c ∧
      unmarshalCard (String.mk [rc, upperChar sc]) = some c ∧
      unmarshalCard (String.mk [lowerChar rc, upperChar sc]) = some c := by
  revert h
  revert c
  decide

/-- C8 witness: the ace of spades round-trips. -/
theorem card_text_roundtrip_witness :
    (Card.mk 14 3) ∈ newDeckUnshuffled ∧ (marshalCard (Card.mk 14 3)).isSome = true :=
  ⟨by decide, (card_text_roundtrip (Card.mk 14 3) (by decide)).1⟩

/-- C5.  Calling with a live bet and a positive deficit `need`: with a
covering stack the call pays exactly `need` from stack into pot; with a
short stack it pays the whole stack, marks the seat all-in, decrements
`actors_to_act` by one, advances the turn, and leaves `current_bet` and
`last_raise_size` unchanged (no reopening of action). -/
theorem call_full_or_short_allin (s : State) (p : String) (st : Seat)
    (hfs : findSeat s.seats p = some st) (hturn : currentPlayer s = p)
    (hcb : 0 < s.currentBet) (hneed : 0 < s.currentBet - st.committed) :
    (s.currentBet - st.committed ≤ st.stack →
      Call s p =
        (advanceTurn
          { s with
            seats := adjustSeat s.seats p (fun q =>
              { q with stack := q.stack - (s.currentBet - st.committed),
                       committed := q.committed + (s.currentBet - st.committed) })
            pot := s.pot + (s.currentBet - st.committed)
            actorsToAct := s.actorsToAct - 1 }, none) ∧
      (Call s p).1.pot = s.pot + (s.currentBet - st.committed) ∧
      findSeat (Call s p).1.seats p =
        some { st with stack := st.stack - (s.currentBet - st.committed),
                       committed := st.committed + (s.currentBet - st.committed) }) ∧
    (st.stack < s.currentBet - st.committed → 0 < st.stack →
      Call s p =
        (advanceTurn
          { s with
            seats := adjustSeat s.seats p (fun q =>
              { q with stack := 0, allIn := true, committed := q.committed + st.stack })
            pot := s.pot + st.stack
            actorsToAct := s.actorsToAct - 1 }, none) ∧
      (Call s p).1.pot = s.pot + st.stack ∧
      findSeat (Call s p).1.seats p =
        some { st with stack := 0, allIn := true, committed := st.committed + st.stack } ∧
      (Call s p).1.actorsToAct = s.actorsToAct - 1 ∧
      (Call s p).1.currentBet = s.currentBet ∧
      (Call s p).1.lastRaiseSize = s.lastRaiseSize) := by
  unfold Call
  rw [hfs]
  dsimp only
  rw [if_neg (show ¬ (currentPlayer s ≠ p) from fun hh => hh hturn)]
  rw [if_neg (show ¬ (s.currentBet = 0) from by omega)]
  rw [if_neg (show ¬ (s.currentBet - st.committed ≤ 0) from by omega)]
  constructor
  · intro hfull
    rw [if_pos hfull]
    refine ⟨rfl, ?_, ?_⟩
    · exact advanceTurn_pot _
    · rw [advanceTurn_seats]
      exact findSeat_adjustSeat_self hfs _
  · intro hshort hpos
    rw [if_neg (show ¬ (s.currentBet - st.committed ≤ st.stack) from by omega)]
    rw [if_neg (show ¬ (st.stack ≤ 0) from by omega)]
    refine ⟨rfl, advanceTurn_pot _, ?_, advanceTurn_actorsToAct _,
      advanceTurn_currentBet _, advanceTurn_lastRaiseSize _⟩
    rw [advanceTurn_seats]
    exact findSeat_adjustSeat_self hfs _

/-- A preflop heads-up state used to exercise the call paths. -/
def c5State : State :=
  { smallBlind := 5, bigBlind := 10, dealerIdx := 1, order := ["a", "b"], turnIdx := 0,
    phase := Phase.preflop, pot := 15,
    seats := [("a", Seat.mk "a" 95 5 true false false), ("b", Seat.mk "b" 90 10 true false false)],
    deck := [], board := [], holes := [], currentBet := 10, actorsToAct := 2,
    lastRaiseSize := 10, handActive := true }

theorem call_full_or_short_allin_witness :
    findSeat c5State.seats "a" = some (Seat.mk "a" 95 5 true false false) ∧
    (Call c5State "a").1.pot =
      c5State.pot + (c5State.currentBet - (Seat.mk "a" 95 5 true false false).committed) :=
  ⟨by decide,
    ((call_full_or_short_allin c5State "a" (Seat.mk "a" 95 5 true false false)
      (by decide) (by decide) (by decide) (by decide)).1 (by decide)).2.1⟩

/-- Preflop state with `last_raise_size = 0` (as after a hypothetical
zero big blind) and a live bet, on which a zero raise meets the claim's
`add ≥ last_raise_size ∧ stack ≥ total` premise yet is rejected. -/
def c6State : State :=
  { smallBlind := 0, bigBlind := 0, dealerIdx := 0, order := ["a", "b"], turnIdx := 0,
    phase := Phase.preflop, pot := 5,
    seats := [("a", Seat.mk "a" 100 0 true false false), ("b", Seat.mk "b" 95 5 true false false)],
    deck := [], board := [], holes := [], currentBet := 5, actorsToAct := 1,
    lastRaiseSize := 0, handActive := true }

/-- C6 counterexample.  With `last_raise_size = 0`, `current_bet = 5`,
seat `a` on turn holding stack 100 ≥ total = 5, the raise `add = 0`
satisfies `add ≥ last_raise_size` and `stack ≥ need + add`, yet the
code rejects it (`raise must be > 0`) with no state change instead of
paying `total` — refuting the claim as stated, which lacks `add ≥ 1`. -/
theorem raise_min_zero_counterexample :
    c6State.lastRaiseSize = 0 ∧ 0 < c6State.currentBet ∧ currentPlayer c6State = "a" ∧
    findSeat c6State.seats "a" = some (Seat.mk "a" 100 0 true false false) ∧
    c6State.lastRaiseSize ≤ (0 : Int) ∧
    max 0 (c6State.currentBet - 0) + 0 ≤ (Seat.mk "a" 100 0 true false false).stack ∧
    (Raise c6State "a" 0).2 = some "raise must be > 0" ∧
    (Raise c6State "a" 0).1 = c6State := by decide

/-- C6 (amended).  For a positive raise amount `add ≥ 1`: if
`add ≥ last_raise_size` and the stack covers `total = need + add`
(`need = max 0 (current_bet − committed)`), the raise pays `total`,
sets `current_bet` to the seat's new committed level, sets
`last_raise_size = add` and recomputes `actors_to_act`; and a raise of
exactly `last_raise_size − 1` by a seat whose stack covers `total`
(hence not all-in) is rejected with an error and no state change.
(`add = 0` is rejected by the `raise must be > 0` guard even when
`last_raise_size = 0`, which is the one correction to the claim.) -/
theorem raise_min_boundary (s : State) (p : String) (st : Seat) (add : Int)
    (hfs : findSeat s.seats p = some st) (hturn : currentPlayer s = p)
    (hcb : 0 < s.currentBet) :
    (1 ≤ add → s.lastRaiseSize ≤ add →
      max 0 (s.currentBet - st.committed) + add ≤ st.stack →
      (Raise s p add).2 = none ∧
      (Raise s p add).1.pot = s.pot + (max 0 (s.currentBet - st.committed) + add) ∧
      findSeat (Raise s p add).1.seats p =
        some { st with
               stack := st.stack - (max 0 (s.currentBet - st.committed) + add),
               committed := st.committed + (max 0 (s.currentBet - st.committed) + add) } ∧
      (Raise s p add).1.currentBet =
        st.committed + (max 0 (s.currentBet - st.committed) + add) ∧
      (Raise s p add).1.lastRaiseSize = add ∧
      (Raise s p add).1.actorsToAct = countNeedToAct (Raise s p add).1) ∧
    (add = s.lastRaiseSize - 1 →
      max 0 (s.currentBet - st.committed) + add ≤ st.stack →
      (Raise s p add).2 ≠ none ∧ (Raise s p add).1 = s) := by
  have hneedeq : (if st.committed < s.currentBet then s.currentBet - st.committed else 0) =
      max 0 (s.currentBet - st.committed) := by
    split_ifs <;> omega
  constructor
  · intro hpos hmin hstack
    unfold Raise
    rw [hfs]
    dsimp only
    rw [if_neg (show ¬ (currentPlayer s ≠ p) from fun hh => hh hturn)]
    rw [if_neg (show ¬ (s.currentBet = 0) from by omega)]
    rw [if_neg (show ¬ (add ≤ 0) from by omega)]
    simp only [hneedeq]
    rw [if_pos ⟨hmin, hstack⟩]
    refine ⟨rfl, advanceTurn_pot _, ?_, ?_, advanceTurn_lastRaiseSize _, ?_⟩
    · rw [advanceTurn_seats]
      exact findSeat_adjustSeat_self hfs _
    · exact advanceTurn_currentBet _
    · rw [advanceTurn_actorsToAct]
      try dsimp only
      apply countNeedToAct_congr
      · rw [advanceTurn_order]
      · rw [advanceTurn_seats]
      · rw [advanceTurn_currentBet]
  · intro hone hstack
    unfold Raise
    rw [hfs]
    dsimp only
    rw [if_neg (show ¬ (currentPlayer s ≠ p) from fun hh => hh hturn)]
    rw [if_neg (show ¬ (s.currentBet = 0) from by omega)]
    by_cases hz : add ≤ 0
    · rw [if_pos hz]
      exact ⟨by simp, rfl⟩
    · rw [if_neg hz]
      simp only [hneedeq]
      rw [if_neg (show ¬ (s.lastRaiseSize ≤ add ∧
          max 0 (s.currentBet - st.committed) + add ≤ st.stack) from by
        intro hc
        omega)]
      rw [if_neg (show ¬ (st.stack < max 0 (s.currentBet - st.committed) + add) from by
        omega)]
      exact ⟨by simp, rfl⟩

theorem raise_min_boundary_witness :
    findSeat c5State.seats "a" = some (Seat.mk "a" 95 5 true false false) ∧
    (Raise c5State "a" 10).2 = none ∧ (Raise c5State "a" 9).2 ≠ none :=
  ⟨by decide,
    ((raise_min_boundary c5State "a" (Seat.mk "a" 95 5 true false false) 10
      (by decide) (by decide) (by decide)).1 (by decide) (by decide) (by decide)).1,
    ((raise_min_boundary c5State "a" (Seat.mk "a" 95 5 true false false) 9
      (by decide) (by decide) (by decide)).2 (by decide) (by decide)).1⟩

/-! ### Showdown infrastructure lemmas -/

theorem evalsOf_mem {s : State} {e : String × HandValue × List Card}
    (he : e ∈ evalsOf s) :
    e.1 ∈ s.order ∧ ∃ st, findSeat s.seats e.1 = some st ∧
      st.inHand = true ∧ st.folded = false := by
  unfold evalsOf at he
  rw [List.mem_filterMap] at he
  obtain ⟨pid, hpid, hf⟩ := he
  cases hfs : findSeat s.seats pid with
  | none => rw [hfs] at hf; simp at hf
  | some st =>
    rw [hfs] at hf
    dsimp only at hf
    by_cases hel : (st.inHand && !st.folded) = true
    · rw [if_pos hel] at hf
      obtain ⟨hin, hnf⟩ := Bool.and_eq_true_iff.mp hel
      cases hf
      exact ⟨hpid, st, hfs, hin, by simpa using hnf⟩
    · rw [if_neg hel] at hf
      simp at hf

theorem map_fst_filterMap_sublist (l : List String)
    (f : String → Option (String × HandValue × List Card))
    (hf : ∀ a b, f a = some b → b.1 = a) :
    ((l.filterMap f).map (fun e => e.1)).Sublist l := by
  induction l with
  | nil => simp
  | cons hd tl ih =>
    rw [List.filterMap_cons]
    cases hfa : f hd with
    | none => exact ih.cons hd
    | some b =>
      rw [List.map_cons]
      rw [hf hd b hfa]
      exact ih.cons₂ hd

theorem evals_fst_sublist (s : State) :
    ((evalsOf s).map (fun e => e.1)).Sublist s.order := by
  unfold evalsOf
  apply map_fst_filterMap_sublist
  intro a b hab
  cases hfs : findSeat s.seats a with
  | none => rw [hfs] at hab; simp at hab
  | some st =>
    rw [hfs] at hab
    dsimp only at hab
    by_cases hel : (st.inHand && !st.folded) = true
    · rw [if_pos hel] at hab; cases hab; rfl
    · rw [if_neg hel] at hab; simp at hab

theorem winners_players_sublist (s : State) :
    ((winnersOf s).map ShowdownWinner.player).Sublist s.order := by
  unfold winnersOf
  cases hev : evalsOf s with
  | nil => simp
  | cons e0 rest =>
    have h1 : (((e0 :: rest).filter
          (fun e => !(bestVal e0.2.1 rest).lessB e.2.1 &&
            !e.2.1.lessB (bestVal e0.2.1 rest))).map (fun e => e.1)).Sublist
        ((e0 :: rest).map (fun e => e.1)) :=
      (List.filter_sublist _).map _
    rw [List.map_map]
    have h2 : ((e0 :: rest).map (fun e => e.1)).Sublist s.order := by
      rw [← hev]; exact evals_fst_sublist s
    exact h1.trans h2

theorem winnersOf_mem {s : State} {w : ShowdownWinner} (hw : w ∈ winnersOf s) :
    w.player ∈ s.order ∧ ∃ st, findSeat s.seats w.player = some st := by
  unfold winnersOf at hw
  cases hev : evalsOf s with
  | nil => rw [hev] at hw; simp at hw
  | cons e0 rest =>
    rw [hev] at hw
    simp only [List.mem_map] at hw
    obtain ⟨e, he, rfl⟩ := hw
    have he2 : e ∈ evalsOf s := by
      rw [hev]; exact List.mem_of_mem_filter he
    obtain ⟨ho, st, hfs, _, _⟩ := evalsOf_mem he2
    exact ⟨ho, st, hfs⟩

theorem ranksLessB_irrefl (l : List Nat) : ranksLessB l l = false := by
  induction l with
  | nil => rfl
  | cons hd tl ih => simp [ranksLessB, ih]

theorem lessB_irrefl (v : HandValue) : v.lessB v = false := by
  unfold HandValue.lessB
  simp [ranksLessB_irrefl]

theorem bestVal_mem (b : HandValue) (l : List (String × HandValue × List Card)) :
    bestVal b l = b ∨ ∃ e ∈ l, bestVal b l = e.2.1 := by
  induction l generalizing b with
  | nil => exact Or.inl rfl
  | cons hd tl ih =>
    unfold bestVal
    by_cases hlt : b.lessB hd.2.1 = true
    · rw [hlt]
      simp only [if_true]
      rcases ih hd.2.1 with h | ⟨e, he, hee⟩
      · exact Or.inr ⟨hd, List.mem_cons_self hd tl, h⟩
      · exact Or.inr ⟨e, List.mem_cons_of_mem hd he, hee⟩
    · rw [Bool.not_eq_true] at hlt
      rw [hlt]
      simp only [Bool.false_eq_true, if_false]
      rcases ih b with h | ⟨e, he, hee⟩
      · exact Or.inl h
      · exact Or.inr ⟨e, List.mem_cons_of_mem hd he, hee⟩

theorem winnersOf_ne_nil {s : State} (hev : evalsOf s ≠ []) : winnersOf s ≠ [] := by
  unfold winnersOf
  cases hevc : evalsOf s with
  | nil => exact absurd hevc hev
  | cons e0 rest =>
    intro hcon
    rw [List.map_eq_nil] at hcon
    have hfilter := hcon
    rcases bestVal_mem e0.2.1 rest with hb | ⟨e, he, hee⟩
    · have : e0 ∈ (e0 :: rest).filter
          (fun e => !(bestVal e0.2.1 rest).lessB e.2.1 &&
            !e.2.1.lessB (bestVal e0.2.1 rest)) := by
        rw [List.mem_filter]
        refine ⟨List.mem_cons_self _ _, ?_⟩
        rw [hb]
        simp [lessB_irrefl]
      rw [hfilter] at this
      simp at this
    · have : e ∈ (e0 :: rest).filter
          (fun x => !(bestVal e0.2.1 rest).lessB x.2.1 &&
            !x.2.1.lessB (bestVal e0.2.1 rest)) := by
        rw [List.mem_filter]
        refine ⟨List.mem_cons_of_mem _ he, ?_⟩
        rw [hee]
        simp [lessB_irrefl]
      rw [hfilter] at this
      simp at this

/-- Per-seat effect of the even-split pass: each winner's stack grows by
`per`, other seats are untouched. -/
theorem foldPay_find (winners : List ShowdownWinner) (per : Int) :
    ∀ (seats : List (String × Seat)),
    (winners.map ShowdownWinner.player).Nodup →
    ∀ pid st, findSeat seats pid = some st →
      findSeat (winners.foldl (fun se w =>
          adjustSeat se w.player (fun q => { q with stack := q.stack + per })) seats) pid =
        some (if pid ∈ winners.map ShowdownWinner.player then
          { st with stack := st.stack + per } else st) := by
  induction winners with
  | nil => intro seats _ pid st hfs; simpa using hfs
  | cons w ws ih =>
    intro seats hnodup pid st hfs
    rw [List.foldl_cons]
    rw [List.map_cons] at hnodup ⊢
    have hnd2 := (List.nodup_cons.mp hnodup).2
    have hwni := (List.nodup_cons.mp hnodup).1
    by_cases hpw : pid = w.player
    · subst hpw
      have h1 : findSeat
          (adjustSeat seats w.player (fun q => { q with stack := q.stack + per }))
          w.player = some { st with stack := st.stack + per } :=
        findSeat_adjustSeat_self hfs _
      have h2 := ih _ hnd2 w.player _ h1
      rw [h2]
      rw [if_neg (by simpa using hwni)]
      rw [if_pos (List.mem_cons_self _ _)]
    · have h1 : findSeat (adjustSeat seats w.player (fun q => { q with stack := q.stack + per }))
          pid = some st := by
        rw [findSeat_adjustSeat_ne hpw]; exact hfs
      have h2 := ih _ hnd2 pid _ h1
      rw [h2]
      by_cases hmem : pid ∈ ws.map ShowdownWinner.player
      · rw [if_pos hmem, if_pos (List.mem_cons_of_mem _ hmem)]
      · rw [if_neg hmem, if_neg (by
          intro hc
          rcases List.mem_cons.mp hc with hc | hc
          · exact hpw hc
          · exact hmem hc)]

/-- The even-split pass preserves seat existence. -/
theorem foldPay_isSome (winners : List ShowdownWinner) (per : Int) :
    ∀ (seats : List (String × Seat)) (q : String),
    (findSeat (winners.foldl (fun se w =>
        adjustSeat se w.player (fun x => { x with stack := x.stack + per })) seats) q).isSome =
      (findSeat seats q).isSome := by
  induction winners with
  | nil => intro seats q; rfl
  | cons w ws ih =>
    intro seats q
    rw [List.foldl_cons, ih, isSome_findSeat_adjustSeat]

/-- Stack-sum effect of the even-split pass. -/
theorem foldPay_sum (winners : List ShowdownWinner) (per : Int) :
    ∀ (seats : List (String × Seat)),
    (∀ w ∈ winners, (findSeat seats w.player).isSome) →
    stacksSum (winners.foldl (fun se w =>
        adjustSeat se w.player (fun q => { q with stack := q.stack + per })) seats) =
      stacksSum seats + per * winners.length := by
  induction winners with
  | nil => intro seats _; simp
  | cons w ws ih =>
    intro seats hseat
    rw [List.foldl_cons]
    have hsome := hseat w (List.mem_cons_self _ _)
    obtain ⟨st, hst⟩ := Option.isSome_iff_exists.mp hsome
    rw [ih _ (by
      intro w' hw'
      rw [isSome_findSeat_adjustSeat]
      exact hseat w' (List.mem_cons_of_mem _ hw'))]
    rw [stacksSum_adjustSeat hst]
    simp only [List.length_cons]
    push_cast
    ring

/-- Per-seat effect of the remainder walk: the first `rem` winners met in
walk order each gain one chip; everyone else is untouched. -/
theorem distribRem_find (wset : List String) :
    ∀ (walk : List String) (rem : Int) (seats : List (String × Seat)),
    walk.Nodup →
    (∀ q ∈ walk, q ∈ wset → (findSeat seats q).isSome) →
    ∀ pid st, findSeat seats pid = some st →
      findSeat (distribRem seats walk wset rem) pid =
        some (if pid ∈ (walk.filter (fun q => q ∈ wset)).take rem.toNat then
          { st with stack := st.stack + 1 } else st) := by
  intro walk
  induction walk with
  | nil =>
    intro rem seats _ _ pid st hfs
    simp [distribRem, hfs]
  | cons q rest ih =>
    intro rem seats hnodup hws pid st hfs
    rw [List.nodup_cons] at hnodup
    unfold distribRem
    by_cases hrem : rem ≤ 0
    · rw [if_pos hrem]
      have : rem.toNat = 0 := by omega
      rw [this]
      simpa using hfs
    · rw [if_neg hrem]
      by_cases hqw : q ∈ wset
      · rw [if_pos hqw]
        have hsome := hws q (List.mem_cons_self _ _) hqw
        obtain ⟨stq, hstq⟩ := Option.isSome_iff_exists.mp hsome
        rw [hstq]
        have htake : (List.filter (fun x => decide (x ∈ wset)) (q :: rest)).take rem.toNat =
            q :: (rest.filter (fun x => decide (x ∈ wset))).take (rem - 1).toNat := by
          rw [List.filter_cons_of_pos (by simpa using hqw)]
          have : rem.toNat = (rem - 1).toNat + 1 := by omega
          rw [this, List.take_succ_cons]
        by_cases hpq : pid = q
        · subst hpq
          have hst : st = stq := by rw [hfs] at hstq; cases hstq; rfl
          subst hst
          have h1 : findSeat (adjustSeat seats pid (fun x => { x with stack := x.stack + 1 }))
              pid = some { st with stack := st.stack + 1 } := findSeat_adjustSeat_self hfs _
          have h2 := ih (rem - 1) _ hnodup.2
            (by
              intro q' hq' hq'w
              rw [isSome_findSeat_adjustSeat]
              exact hws q' (List.mem_cons_of_mem _ hq') hq'w)
            pid _ h1
          rw [h2, htake]
          rw [if_neg (by
            intro hc
            exact hnodup.1 (List.mem_of_mem_filter (List.mem_of_mem_take hc)))]
          rw [if_pos (List.mem_cons_self _ _)]
        · have h1 : findSeat (adjustSeat seats q (fun x => { x with stack := x.stack + 1 }))
              pid = some st := by
            rw [findSeat_adjustSeat_ne hpq]; exact hfs
          have h2 := ih (rem - 1) _ hnodup.2
            (by
              intro q' hq' hq'w
              rw [isSome_findSeat_adjustSeat]
              exact hws q' (List.mem_cons_of_mem _ hq') hq'w)
            pid _ h1
          rw [h2, htake]
          by_cases hmem : pid ∈ (rest.filter (fun x => decide (x ∈ wset))).take (rem - 1).toNat
          · rw [if_pos hmem, if_pos (List.mem_cons_of_mem _ hmem)]
          · rw [if_neg hmem, if_neg (by
              intro hc
              rcases List.mem_cons.mp hc with hc | hc
              · exact hpq hc
              · exact hmem hc)]
      · rw [if_neg hqw]
        have htake : (List.filter (fun x => decide (x ∈ wset)) (q :: rest)).take rem.toNat =
            (rest.filter (fun x => decide (x ∈ wset))).take rem.toNat := by
          rw [List.filter_cons_of_neg (by simpa using hqw)]
        rw [htake]
        exact ih rem _ hnodup.2
          (fun q' hq' hq'w => hws q' (List.mem_cons_of_mem _ hq') hq'w) pid st hfs

/-- Stack-sum effect of the remainder walk: when the walk passes at least
`rem` seated winners, exactly `rem` extra chips are handed out. -/
theorem distribRem_sum (wset : List String) :
    ∀ (walk : List String) (rem : Int) (seats : List (String × Seat)),
    0 ≤ rem →
    (∀ q ∈ walk, q ∈ wset → (findSeat seats q).isSome) →
    rem.toNat ≤ (walk.filter (fun q => q ∈ wset)).length →
    stacksSum (distribRem seats walk wset rem) = stacksSum seats + rem := by
  intro walk
  induction walk with
  | nil =>
    intro rem seats hrem _ hcount
    simp only [List.filter_nil, List.length_nil, Nat.le_zero] at hcount
    have : rem = 0 := by omega
    subst this
    simp [distribRem]
  | cons q rest ih =>
    intro rem seats hrem hws hcount
    unfold distribRem
    by_cases hz : rem ≤ 0
    · rw [if_pos hz]
      have : rem = 0 := by omega
      omega
    · rw [if_neg hz]
      by_cases hqw : q ∈ wset
      · rw [if_pos hqw]
        have hsome := hws q (List.mem_cons_self _ _) hqw
        obtain ⟨stq, hstq⟩ := Option.isSome_iff_exists.mp hsome
        rw [hstq]
        rw [List.filter_cons_of_pos (by simpa using hqw)] at hcount
        have h2 := ih (rem - 1) (adjustSeat seats q (fun x => { x with stack := x.stack + 1 }))
          (by omega)
          (by
            intro q' hq' hq'w
            rw [isSome_findSeat_adjustSeat]
            exact hws q' (List.mem_cons_of_mem _ hq') hq'w)
          (by simp only [List.length_cons] at hcount; omega)
        rw [h2, stacksSum_adjustSeat hstq]
        ring
      · rw [if_neg hqw]
        rw [List.filter_cons_of_neg (by simpa using hqw)] at hcount
        exact ih rem _ hrem
          (fun q' hq' hq'w => hws q' (List.mem_cons_of_mem _ hq') hq'w) hcount

/-- The remainder walk visits exactly the seats of `order`, rotated to
start left of the dealer. -/
theorem remWalk_perm (s : State) (hne : s.order ≠ []) : (remWalk s).Perm s.order := by
  have hlen : 0 < s.order.length := List.length_pos.mpr hne
  have heq : remWalk s = s.order.rotate ((s.dealerIdx + 1) % s.order.length) := by
    apply List.ext_getElem
    · simp [remWalk, List.length_rotate]
    · intro i h1 h2
      simp only [remWalk, List.getElem_map, List.getElem_range]
      rw [List.getElem_rotate]
      have hmod : ((s.dealerIdx + 1) % s.order.length + i) % s.order.length <
          s.order.length := Nat.mod_lt _ hlen
      rw [List.getD_eq_getElem _ _ hmod]
      congr 1
      rw [Nat.add_comm]
  rw [heq]
  exact List.rotate_perm _ _

set_option maxHeartbeats 1600000 in
/-- C7.  Showdown pot split: with at least one winner (the in-hand,
non-folded seats of maximal hand value), every winner's stack gains
`per = pot / n`; the remainder `pot % n` is handed out one chip per
winner walking seat order from `(dealer_idx + 1) mod N` and skipping
non-winners; afterwards the pot is 0, the hand is over, and the chips
paid out total exactly the prior pot. -/
theorem resolveShowdown_pot_split (s : State)
    (hnodup : s.order.Nodup) (hpot : 0 ≤ s.pot) (hw : winnersOf s ≠ []) :
    (ResolveShowdown s).1.pot = 0 ∧
    (ResolveShowdown s).1.handActive = false ∧
    sumStacks (ResolveShowdown s).1 = sumStacks s + s.pot ∧
    (ResolveShowdown s).2.payoutPer = s.pot / ((winnersOf s).length : Int) ∧
    (ResolveShowdown s).2.totalPayout = s.pot ∧
    (∀ pid st, findSeat s.seats pid = some st →
      findSeat (ResolveShowdown s).1.seats pid =
        some { st with stack := st.stack +
          (if pid ∈ (winnersOf s).map ShowdownWinner.player then
            s.pot / ((winnersOf s).length : Int) else 0) +
          (if pid ∈ ((remWalk s).filter
              (fun q => q ∈ (winnersOf s).map ShowdownWinner.player)).take
                (s.pot % ((winnersOf s).length : Int)).toNat
            then 1 else 0) }) := by
  obtain ⟨w0, hw0⟩ := List.exists_mem_of_ne_nil _ hw
  have hne : s.order ≠ [] := List.ne_nil_of_mem (winnersOf_mem hw0).1
  have hnw : 0 < ((winnersOf s).length : Int) := by
    have := List.length_pos.mpr hw
    exact_mod_cast this
  have hperdef : (if 0 < s.pot ∧ 0 < ((winnersOf s).length : Int) then
      s.pot / ((winnersOf s).length : Int) else 0) = s.pot / ((winnersOf s).length : Int) := by
    by_cases hp0 : 0 < s.pot
    · rw [if_pos ⟨hp0, hnw⟩]
    · have : s.pot = 0 := by omega
      rw [this]
      simp
  have hremdef : (if 0 < s.pot ∧ 0 < ((winnersOf s).length : Int) then
      s.pot % ((winnersOf s).length : Int) else 0) = s.pot % ((winnersOf s).length : Int) := by
    by_cases hp0 : 0 < s.pot
    · rw [if_pos ⟨hp0, hnw⟩]
    · have : s.pot = 0 := by omega
      rw [this]
      simp
  have hwsetsub : ((winnersOf s).map ShowdownWinner.player).Sublist s.order :=
    winners_players_sublist s
  have hwsetnodup : ((winnersOf s).map ShowdownWinner.player).Nodup :=
    hwsetsub.nodup hnodup
  have hwalknodup : (remWalk s).Nodup := ((remWalk_perm s hne).nodup_iff).mpr hnodup
  have hrem0 : 0 ≤ s.pot % ((winnersOf s).length : Int) :=
    Int.emod_nonneg _ (by omega)
  have hremlt : s.pot % ((winnersOf s).length : Int) < ((winnersOf s).length : Int) :=
    Int.emod_lt_of_pos _ hnw
  -- the walk passes at least `rem` winners
  have hcount : (s.pot % ((winnersOf s).length : Int)).toNat ≤
      ((remWalk s).filter
        (fun q => q ∈ (winnersOf s).map ShowdownWinner.player)).length := by
    have h1 : ((remWalk s).filter
        (fun q => q ∈ (winnersOf s).map ShowdownWinner.player)).length =
        (remWalk s).countP (fun q => decide (q ∈ (winnersOf s).map ShowdownWinner.player)) :=
      (List.countP_eq_length_filter _ _).symm
    have h2 := (remWalk_perm s hne).countP_eq
      (fun q => decide (q ∈ (winnersOf s).map ShowdownWinner.player))
    have h3 : ((winnersOf s).map ShowdownWinner.player).countP
        (fun q => decide (q ∈ (winnersOf s).map ShowdownWinner.player)) =
        ((winnersOf s).map ShowdownWinner.player).length :=
      List.countP_eq_length.mpr (fun a ha => by simpa using ha)
    have h4 := hwsetsub.countP_le
      (fun q => decide (q ∈ (winnersOf s).map ShowdownWinner.player))
    have h5 : ((winnersOf s).map ShowdownWinner.player).length = (winnersOf s).length :=
      List.length_map _ _
    omega
  -- seat existence for every winner
  have hwseat : ∀ q ∈ remWalk s, q ∈ (winnersOf s).map ShowdownWinner.player →
      (findSeat s.seats q).isSome := by
    intro q _ hq
    rw [List.mem_map] at hq
    obtain ⟨w', hw', rfl⟩ := hq
    obtain ⟨_, st, hst⟩ := winnersOf_mem hw'
    rw [hst]
    rfl
  cases hev : evalsOf s with
  | nil =>
    have : winnersOf s = [] := by unfold winnersOf; rw [hev]
    exact absurd this hw
  | cons e0 rest =>
    have heta : List.map (fun (w : ShowdownWinner) => w.player) (winnersOf s) =
        List.map ShowdownWinner.player (winnersOf s) := rfl
    refine ⟨?_, ?_, ?_, ?_, ?_, ?_⟩
    · simp [ResolveShowdown, hev]
    · simp [ResolveShowdown, hev]
    · -- sum of stacks grows by the pot
      simp only [ResolveShowdown, hev, sumStacks_eq]
      simp only [hperdef, hremdef, heta]
      have hfold := foldPay_sum (winnersOf s) (s.pot / ((winnersOf s).length : Int)) s.seats
        (by
          intro w' hw'
          obtain ⟨_, st, hst⟩ := winnersOf_mem hw'
          rw [hst]; rfl)
      have hdm := Int.ediv_add_emod s.pot ((winnersOf s).length : Int)
      by_cases hrpos : 0 < s.pot % ((winnersOf s).length : Int)
      · rw [if_pos hrpos]
        rw [distribRem_sum _ _ _ _ (by omega)
          (by
            intro q hq hqw
            rw [foldPay_isSome]
            exact hwseat q hq hqw)
          hcount]
        rw [hfold]
        rw [Int.mul_comm] at hdm
        omega
      · rw [if_neg hrpos]
        rw [hfold]
        rw [Int.mul_comm] at hdm
        omega
    · simp only [ResolveShowdown, hev]
      exact hperdef
    · simp only [ResolveShowdown, hev]
      ring
    · -- per-seat payouts
      simp only [ResolveShowdown, hev]
      simp only [hperdef, hremdef, heta]
      intro pid st hfs
      have h1 := foldPay_find (winnersOf s) (s.pot / ((winnersOf s).length : Int)) s.seats
        hwsetnodup pid st hfs
      by_cases hrpos : 0 < s.pot % ((winnersOf s).length : Int)
      · rw [if_pos hrpos]
        have h2 := distribRem_find (List.map ShowdownWinner.player (winnersOf s)) (remWalk s)
          (s.pot % ((winnersOf s).length : Int)) _ hwalknodup
          (by
            intro q hq hqw
            rw [foldPay_isSome]
            exact hwseat q hq hqw)
          pid _ h1
        rw [h2]
        by_cases hwin : pid ∈ List.map ShowdownWinner.player (winnersOf s)
        · by_cases hrec : pid ∈ ((remWalk s).filter
              (fun q => q ∈ List.map ShowdownWinner.player (winnersOf s))).take
                (s.pot % ((winnersOf s).length : Int)).toNat
          · simp [hwin, hrec]
            try (split_ifs <;> simp)
          · simp [hwin, hrec]
            try (split_ifs <;> simp)
        · have hrec : pid ∉ ((remWalk s).filter
              (fun q => q ∈ List.map ShowdownWinner.player (winnersOf s))).take
                (s.pot % ((winnersOf s).length : Int)).toNat := by
            intro hc
            exact hwin (by simpa using List.of_mem_filter (List.mem_of_mem_take hc))
          simp [hwin, hrec]
          try (split_ifs <;> simp)
      · rw [if_neg hrpos]
        rw [h1]
        have hz : (s.pot % ((winnersOf s).length : Int)).toNat = 0 := by omega
        rw [hz]
        simp only [List.take_zero, List.not_mem_nil, if_false]
        by_cases hwin : pid ∈ List.map ShowdownWinner.player (winnersOf s)
        · rw [if_pos hwin, if_pos hwin]
          simp
        · rw [if_neg hwin, if_neg hwin]
          simp

/-- Three seats checking down to a royal-flush board: a three-way tie
splitting a pot of 101. -/
def c7State : State :=
  { smallBlind := 5, bigBlind := 10, dealerIdx := 0, order := ["a", "b", "c"], turnIdx := 1,
    phase := Phase.showdown, pot := 101,
    seats := [("a", Seat.mk "a" 100 0 true false false), ("b", Seat.mk "b" 100 0 true false false),
      ("c", Seat.mk "c" 100 0 true false false)],
    deck := [],
    board := [Card.mk 14 3, Card.mk 13 3, Card.mk 12 3, Card.mk 11 3, Card.mk 10 3],
    holes := [("a", [Card.mk 2 0, Card.mk 3 0]), ("b", [Card.mk 4 0, Card.mk 5 0]),
      ("c", [Card.mk 6 0, Card.mk 7 0])],
    currentBet := 0, actorsToAct := 0, lastRaiseSize := 10, handActive := true }

theorem resolveShowdown_pot_split_witness :
    c7State.order.Nodup ∧ 0 ≤ c7State.pot ∧ winnersOf c7State ≠ [] ∧
    (ResolveShowdown c7State).1.pot = 0 ∧
    (ResolveShowdown c7State).2.payoutPer =
      c7State.pot / ((winnersOf c7State).length : Int) :=
  ⟨by decide, by decide, by decide,
    (resolveShowdown_pot_split c7State (by decide) (by decide) (by decide)).1,
    (resolveShowdown_pot_split c7State (by decide) (by decide) (by decide)).2.2.2.1⟩

/-! ### Pot monotonicity of the engine operations (for C2) -/

theorem pot_Bet (s : State) (p : String) (amt : Int) : s.pot ≤ (Bet s p amt).1.pot := by
  cases hfs : findSeat s.seats p with
  | none => simp [Bet, hfs]
  | some st =>
    simp only [Bet, hfs]
    split_ifs <;> try rfl
    simp only [advanceTurn_pot]
    omega

theorem pot_Check (s : State) (p : String) : s.pot ≤ (Check s p).1.pot := by
  cases hfs : findSeat s.seats p with
  | none => simp [Check, hfs]
  | some st =>
    simp only [Check, hfs]
    split_ifs <;> simp [advanceTurn_pot]

theorem pot_Fold (s : State) (p : String) : s.pot ≤ (Fold s p).1.pot := by
  cases hfs : findSeat s.seats p with
  | none => simp [Fold, hfs]
  | some st =>
    simp only [Fold, hfs]
    split_ifs <;> simp [advanceTurn_pot]

theorem pot_Call (s : State) (p : String) : s.pot ≤ (Call s p).1.pot := by
  cases hfs : findSeat s.seats p with
  | none => simp [Call, hfs]
  | some st =>
    simp only [Call, hfs]
    split_ifs <;> try rfl
    all_goals
      simp only [advanceTurn_pot]
      omega

set_option maxHeartbeats 1000000 in
theorem pot_Raise (s : State) (p : String) (add : Int) : s.pot ≤ (Raise s p add).1.pot := by
  cases hfs : findSeat s.seats p with
  | none => simp [Raise, hfs]
  | some st =>
    unfold Raise
    rw [hfs]
    dsimp only
    by_cases hc1 : currentPlayer s ≠ p
    · simp only [if_pos hc1]
      omega
    · simp only [if_neg hc1]
      by_cases hc2 : s.currentBet = 0
      · simp only [if_pos hc2]
        omega
      · simp only [if_neg hc2]
        by_cases hc3 : add ≤ 0
        · simp only [if_pos hc3]
          omega
        · simp only [if_neg hc3]
          by_cases hc4 : s.lastRaiseSize ≤ add ∧
              (if st.committed < s.currentBet then s.currentBet - st.committed else 0) + add ≤
                st.stack
          · simp only [if_pos hc4]
            simp only [advanceTurn_pot]
            split_ifs at * <;> omega
          · simp only [if_neg hc4]
            by_cases hc5 : st.stack <
                (if st.committed < s.currentBet then s.currentBet - st.committed else 0) + add
            · simp only [if_pos hc5]
              by_cases hc6 : (0 : Int) < min st.stack
                  (if st.committed < s.currentBet then s.currentBet - st.committed else 0)
              · simp only [if_pos hc6]
                by_cases hc7 : st.stack - min st.stack
                    (if st.committed < s.currentBet then s.currentBet - st.committed else 0) ≤ 0
                · simp only [if_pos hc7]
                  try dsimp only
                  omega
                · simp only [if_neg hc7]
                  try dsimp only
                  split_ifs <;> simp only [advanceTurn_pot] <;> omega
              · simp only [if_neg hc6]
                by_cases hc7 : st.stack ≤ (0 : Int)
                · simp only [if_pos hc7]
                  omega
                · simp only [if_neg hc7]
                  try dsimp only
                  split_ifs <;> simp only [advanceTurn_pot] <;>
                    simp only [min_def] at hc6 <;> split_ifs at hc6 <;> omega
            · simp only [if_neg hc5]
              omega

theorem resetCommitted_pot (s : State) :
    (resetCommittedAndSetTurnFromDealer s).pot = s.pot := by
  unfold resetCommittedAndSetTurnFromDealer
  dsimp only
  split_ifs <;> rfl

theorem pot_AdvancePhase (s : State) : (AdvancePhase s).pot = s.pot := by
  cases hp : s.phase <;> simp only [AdvancePhase, hp] <;> try dsimp only
  all_goals
    first
      | rfl
      | (split_ifs <;> rw [resetCommitted_pot])

theorem pot_ResolveShowdown (s : State) : (ResolveShowdown s).1.pot = 0 := by
  cases hev : evalsOf s <;> simp [ResolveShowdown, hev]

/-! ### C2: chip conservation across a hand -/

/-- One engine operation within a hand (the operations the claim names). -/
inductive HandOp where
  | bet (p : String) (amt : Int)
  | check (p : String)
  | call (p : String)
  | raise (p : String) (add : Int)
  | fold (p : String)
  | advance
  | showdown
deriving DecidableEq, Repr

/-- Run one operation, returning the next state and the engine error. -/
def runOp (s : State) : HandOp → State × Option String
  | HandOp.bet p amt => Bet s p amt
  | HandOp.check p => Check s p
  | HandOp.call p => Call s p
  | HandOp.raise p add => Raise s p add
  | HandOp.fold p => Fold s p
  | HandOp.advance => (AdvancePhase s, none)
  | HandOp.showdown => ((ResolveShowdown s).1, none)

/-- A run of successful operations in which every showdown resolution
still has at least one in-hand, non-folded contender. -/
inductive SafeRun : State → List HandOp → State → Prop where
  | nil (s : State) : SafeRun s [] s
  | cons {s s' s'' : State} {op : HandOp} {ops : List HandOp} :
      runOp s op = (s', none) →
      (op = HandOp.showdown → evalsOf s ≠ []) →
      SafeRun s' ops s'' → SafeRun s (op :: ops) s''

set_option maxHeartbeats 800000 in
theorem chips_ResolveShowdown (s : State) (hpot : 0 ≤ s.pot) (hev : evalsOf s ≠ []) :
    chips (ResolveShowdown s).1 = chips s := by
  have hw := winnersOf_ne_nil hev
  obtain ⟨w0, hw0⟩ := List.exists_mem_of_ne_nil _ hw
  have hne : s.order ≠ [] := List.ne_nil_of_mem (winnersOf_mem hw0).1
  have hnw : 0 < ((winnersOf s).length : Int) := by
    have := List.length_pos.mpr hw
    exact_mod_cast this
  have hperdef : (if 0 < s.pot ∧ 0 < ((winnersOf s).length : Int) then
      s.pot / ((winnersOf s).length : Int) else 0) = s.pot / ((winnersOf s).length : Int) := by
    by_cases hp0 : 0 < s.pot
    · rw [if_pos ⟨hp0, hnw⟩]
    · have : s.pot = 0 := by omega
      rw [this]
      simp
  have hremdef : (if 0 < s.pot ∧ 0 < ((winnersOf s).length : Int) then
      s.pot % ((winnersOf s).length : Int) else 0) = s.pot % ((winnersOf s).length : Int) := by
    by_cases hp0 : 0 < s.pot
    · rw [if_pos ⟨hp0, hnw⟩]
    · have : s.pot = 0 := by omega
      rw [this]
      simp
  have hwsetsub : ((winnersOf s).map ShowdownWinner.player).Sublist s.order :=
    winners_players_sublist s
  have hrem0 : 0 ≤ s.pot % ((winnersOf s).length : Int) :=
    Int.emod_nonneg _ (by omega)
  have hremlt : s.pot % ((winnersOf s).length : Int) < ((winnersOf s).length : Int) :=
    Int.emod_lt_of_pos _ hnw
  have hcount : (s.pot % ((winnersOf s).length : Int)).toNat ≤
      ((remWalk s).filter
        (fun q => q ∈ (winnersOf s).map ShowdownWinner.player)).length := by
    have h1 : ((remWalk s).filter
        (fun q => q ∈ (winnersOf s).map ShowdownWinner.player)).length =
        (remWalk s).countP (fun q => decide (q ∈ (winnersOf s).map ShowdownWinner.player)) :=
      (List.countP_eq_length_filter _ _).symm
    have h2 := (remWalk_perm s hne).countP_eq
      (fun q => decide (q ∈ (winnersOf s).map ShowdownWinner.player))
    have h3 : ((winnersOf s).map ShowdownWinner.player).countP
        (fun q => decide (q ∈ (winnersOf s).map ShowdownWinner.player)) =
        ((winnersOf s).map ShowdownWinner.player).length :=
      List.countP_eq_length.mpr (fun a ha => by simpa using ha)
    have h4 := hwsetsub.countP_le
      (fun q => decide (q ∈ (winnersOf s).map ShowdownWinner.player))
    have h5 : ((winnersOf s).map ShowdownWinner.player).length = (winnersOf s).length :=
      List.length_map _ _
    omega
  have hwseat : ∀ q ∈ remWalk s, q ∈ (winnersOf s).map ShowdownWinner.player →
      (findSeat s.seats q).isSome := by
    intro q _ hq
    rw [List.mem_map] at hq
    obtain ⟨w', hw', rfl⟩ := hq
    obtain ⟨_, st, hst⟩ := winnersOf_mem hw'
    rw [hst]
    rfl
  cases hevc : evalsOf s with
  | nil => exact absurd hevc hev
  | cons e0 rest =>
    have heta : List.map (fun (w : ShowdownWinner) => w.player) (winnersOf s) =
        List.map ShowdownWinner.player (winnersOf s) := rfl
    simp only [chips, ResolveShowdown, hevc]
    simp only [hperdef, hremdef, heta]
    have hfold := foldPay_sum (winnersOf s) (s.pot / ((winnersOf s).length : Int)) s.seats
      (by
        intro w' hw'
        obtain ⟨_, st, hst⟩ := winnersOf_mem hw'
        rw [hst]; rfl)
    have hdm := Int.ediv_add_emod s.pot ((winnersOf s).length : Int)
    rw [Int.mul_comm] at hdm
    by_cases hrpos : 0 < s.pot % ((winnersOf s).length : Int)
    · rw [if_pos hrpos]
      rw [distribRem_sum _ _ _ _ (by omega)
        (by
          intro q hq hqw
          rw [foldPay_isSome]
          exact hwseat q hq hqw)
        hcount]
      rw [hfold]
      omega
    · rw [if_neg hrpos]
      rw [hfold]
      omega

theorem safeRun_chips {s : State} {ops : List HandOp} {s' : State}
    (hrun : SafeRun s ops s') (hpot : 0 ≤ s.pot) :
    chips s' = chips s ∧ 0 ≤ s'.pot := by
  induction hrun with
  | nil => exact ⟨rfl, hpot⟩
  | @cons t t' t'' op ops' hstep hside hrun2 ih =>
    have hchip : chips t' = chips t ∧ 0 ≤ t'.pot := by
      cases op with
      | bet p amt =>
        have hstep2 : Bet t p amt = (t', none) := hstep
        have h1 := chips_Bet t p amt
        have h2 := pot_Bet t p amt
        rw [hstep2] at h1 h2
        dsimp only at h1 h2
        exact ⟨h1, by omega⟩
      | check p =>
        have hstep2 : Check t p = (t', none) := hstep
        have h1 := chips_Check t p
        have h2 := pot_Check t p
        rw [hstep2] at h1 h2
        dsimp only at h1 h2
        exact ⟨h1, by omega⟩
      | call p =>
        have hstep2 : Call t p = (t', none) := hstep
        have h1 := chips_Call t p
        have h2 := pot_Call t p
        rw [hstep2] at h1 h2
        dsimp only at h1 h2
        exact ⟨h1, by omega⟩
      | raise p add =>
        have hstep2 : Raise t p add = (t', none) := hstep
        have h1 := chips_Raise t p add
        have h2 := pot_Raise t p add
        rw [hstep2] at h1 h2
        dsimp only at h1 h2
        exact ⟨h1, by omega⟩
      | fold p =>
        have hstep2 : Fold t p = (t', none) := hstep
        have h1 := chips_Fold t p
        have h2 := pot_Fold t p
        rw [hstep2] at h1 h2
        dsimp only at h1 h2
        exact ⟨h1, by omega⟩
      | advance =>
        have h1 := chips_AdvancePhase t
        have h2 := pot_AdvancePhase t
        have h3 : t' = AdvancePhase t := by
          have := congrArg Prod.fst hstep
          simpa using this.symm
        rw [h3]
        exact ⟨h1, by omega⟩
      | showdown =>
        have hside2 := hside rfl
        have h1 := chips_ResolveShowdown t hpot hside2
        have h3 : t' = (ResolveShowdown t).1 := by
          have := congrArg Prod.fst hstep
          simpa using this.symm
        rw [h3]
        exact ⟨h1, by rw [pot_ResolveShowdown]⟩
    obtain ⟨ih1, ih2⟩ := ih hchip.2
    exact ⟨ih1.trans hchip.1, ih2⟩

theorem dealHoles_pot (l : List String) : ∀ s : State, (dealHoles s l).1.pot = s.pot := by
  induction l with
  | nil => intro s; rfl
  | cons pid rest ih =>
    intro s
    cases hfs : findSeat s.seats pid with
    | none => simp [dealHoles, hfs, ih]
    | some st =>
      simp only [dealHoles, hfs]
      split_ifs with h1
      · cases hdk : s.deck with
        | nil => simp
        | cons c1 d1 =>
          cases d1 with
          | nil => simp
          | cons c2 d2 => simpa using ih _
      · exact ih s

theorem postBlind_pot_mono (s : State) (p : String) (amt : Int) (h : 0 ≤ amt) :
    s.pot ≤ (postBlind s p amt).pot := by
  cases hfs : findSeat s.seats p with
  | none => simp [postBlind, hfs]
  | some st =>
    simp only [postBlind, hfs]
    split_ifs <;> dsimp only <;> omega

theorem postBlind_bigBlind (s : State) (p : String) (amt : Int) :
    (postBlind s p amt).bigBlind = s.bigBlind := by
  cases hfs : findSeat s.seats p with
  | none => simp [postBlind, hfs]
  | some st =>
    simp only [postBlind, hfs]
    split_ifs <;> rfl

theorem pot_StartHand (s : State) (deck : List Card)
    (hsb : 0 ≤ s.smallBlind) (hbb : 0 ≤ s.bigBlind) (hord : 2 ≤ s.order.length) :
    0 ≤ (StartHand s deck).1.pot := by
  unfold StartHand
  rw [if_neg (by omega)]
  dsimp only
  rw [dealHoles_pot]
  dsimp only
  refine le_trans ?_ (postBlind_pot_mono _ _ _ ?_)
  · refine le_trans ?_ (postBlind_pot_mono _ _ _ hsb)
    exact Int.le_refl 0
  · rw [postBlind_bigBlind]
    exact hbb

/-- C2 (amended).  Chip conservation: from any state produced by a
successful `start_hand` (with nonnegative blinds), every run of
successful engine operations in which each `showdown` resolution still
has an in-hand, non-folded contender keeps `sum(stacks) + pot` equal to
the stack total at hand start.  (A showdown with *no* contender — all
seats folded — discards the pot and breaks the equality, which is the
one correction to the claim; see the counterexample.) -/
theorem chip_conservation (s s0 : State) (deck : List Card) (ops : List HandOp) (s' : State)
    (hsb : 0 ≤ s.smallBlind) (hbb : 0 ≤ s.bigBlind)
    (hstart : StartHand s deck = (s0, none))
    (hrun : SafeRun s0 ops s') :
    sumStacks s' + s'.pot = sumStacks s := by
  have hord : 2 ≤ s.order.length := by
    by_contra hlt
    push_neg at hlt
    unfold StartHand at hstart
    rw [if_pos (by omega)] at hstart
    simp at hstart
  have hchips0 : chips s0 = stacksSum s.seats := by
    have h := chips_StartHand s deck hord
    rw [hstart] at h
    exact h
  have hpot0 : 0 ≤ s0.pot := by
    have h := pot_StartHand s deck hsb hbb hord
    rw [hstart] at h
    exact h
  obtain ⟨hc, _⟩ := safeRun_chips hrun hpot0
  have hfinal : chips s' = stacksSum s.seats := hc.trans hchips0
  simpa [chips, sumStacks_eq] using hfinal

/-- A fresh two-player table about to start a hand. -/
def c2Start : State :=
  { smallBlind := 5, bigBlind := 10, dealerIdx := 0, order := ["a", "b"], turnIdx := 0,
    phase := Phase.preflop, pot := 0,
    seats := [("a", Seat.mk "a" 100 0 false false false),
      ("b", Seat.mk "b" 100 0 false false false)],
    deck := [], board := [], holes := [], currentBet := 0, actorsToAct := 0,
    lastRaiseSize := 0, handActive := false }

/-- Four cards suffice for the two hole-card pairs. -/
def c2Deck : List Card := [Card.mk 2 0, Card.mk 3 0, Card.mk 4 0, Card.mk 5 0]

def c2s0 : State := (StartHand c2Start c2Deck).1

def c2s1 : State := (runOp c2s0 (HandOp.fold "a")).1

def c2s2 : State := (runOp c2s1 (HandOp.fold "b")).1

def c2s3 : State := (runOp c2s2 HandOp.showdown).1

/-- C2 counterexample.  After a successful `start_hand` (blinds 5/10,
stacks 100+100 = 200), both players fold and the `showdown` resolution
succeeds with no contenders left; the blinds (15) are discarded with the
pot, so `sum(stacks) + pot` ends at 185 ≠ 200 even though every engine
operation in the sequence succeeded. -/
theorem chip_conservation_counterexample :
    (StartHand c2Start c2Deck).2 = none ∧
    (runOp c2s0 (HandOp.fold "a")).2 = none ∧
    (runOp c2s1 (HandOp.fold "b")).2 = none ∧
    (runOp c2s2 HandOp.showdown).2 = none ∧
    sumStacks c2Start = 200 ∧
    sumStacks c2s3 + c2s3.pot = 185 := by decide

def c2ws1 : State := (runOp c2s0 (HandOp.call "a")).1

/-- The engine state a non-authority replica installs when applying a
committed action: the authority-only auto-commit branches of `apply` are
dead, so only the engine mutation of the switch remains. -/
def applyEngFollower (env : Env) (cfg : TableConfig) (a : Action) (e : State) : State :=
  match a.type with
  | ActionType.advance => AdvancePhase e
  | ActionType.join =>
    if (findSeat e.seats a.playerID).isSome then e else (Sit e a.playerID cfg.minBuyin).1
  | _ => (engSwitch env cfg a e).1

theorem afterApply_follower (env : Env) (t : Table) (r : State × Option String)
    (hauth : t.authority = false) :
    afterApply env t r = ({ t with eng := r.1 }, []) := by
  unfold afterApply
  cases hr : r.2 with
  | some e => rfl
  | none =>
    dsimp only
    rw [if_neg]
    simp [hauth]

theorem applyA_follower (env : Env) (t : Table) (a : Action)
    (hauth : t.authority = false) :
    applyA env t a = ({ t with eng := applyEngFollower env t.cfg a t.eng }, []) := by
  obtain ⟨aid, ty, pid, amt, meta⟩ := a
  cases ty
  case advance =>
    unfold applyA applyEngFollower
    dsimp only
    rw [if_neg]
    simp [hauth]
  case join =>
    unfold applyA applyEngFollower
    dsimp only
    by_cases hs : (findSeat t.eng.seats pid).isSome
    · rw [if_pos hs, if_pos hs]
    · rw [if_neg hs, if_neg hs]
      exact afterApply_follower env t _ hauth
  all_goals (unfold applyA applyEngFollower; exact afterApply_follower env t _ hauth)

/-- C1 (amended).  For any replica and inbound committed action: a dedup
hit is silently dropped with no state change; a fresh id at exactly the
expected sequence `seq + 1` is applied (on a non-authority replica the
engine takes one `applyEngFollower` step), advances `seq`, records the
id and appends to the log, emitting nothing; a fresh id at ANY other
sequence — a gap `msg.seq > seq + 1` but also a stale
`msg.seq ≤ seq` — is discarded without touching seq, log, dedup, engine
or epoch, and emits a `state_query` (the claim's "silently drop" for the
stale case is wrong: only dedup hits are silent). -/
theorem applyCommit_cases (env : Env) (t : Table) (a : Action) (sq : Nat) :
    (a.id ∈ t.dedup → applyCommit env t a sq = (t, [])) ∧
    (a.id ∉ t.dedup → sq = t.seq + 1 → t.authority = false →
      applyCommit env t a sq =
        ({ t with
            seq := sq
            eng := applyEngFollower env t.cfg a t.eng
            log := t.log ++ [a]
            dedup := a.id :: t.dedup }, [])) ∧
    (a.id ∉ t.dedup → sq ≠ t.seq + 1 →
      applyCommit env t a sq =
        ({ t with clock := t.clock + 1 },
          [stateQueryMsg { t with clock := t.clock + 1 }])) := by
  refine ⟨?_, ?_, ?_⟩
  · intro hd
    unfold applyCommit
    rw [if_pos hd]
  · intro hd hsq hauth
    unfold applyCommit
    rw [if_neg hd, if_neg (not_not_intro hsq)]
    dsimp only
    rw [applyA_follower env { t with seq := sq } a hauth]
  · intro hd hsq
    unfold applyCommit
    rw [if_neg hd, if_pos hsq]

def c1Cfg : TableConfig :=
  { name := "t", minBuyin := 100, smallBlind := 1, bigBlind := 2,
    authorityTick := 100, followerTO := 3000 }

def c1Eng : State :=
  { smallBlind := 1, bigBlind := 2, dealerIdx := 0, order := [], turnIdx := 0,
    phase := Phase.preflop, pot := 0, seats := [], deck := [], board := [], holes := [],
    currentBet := 0, actorsToAct := 0, lastRaiseSize := 0, handActive := false }

def c1Env : Env := { deckOf := fun _ => [], advId := "adv", showId := "show", now := 0 }

def c1Tbl : Table :=
  { id := "tbl", self := "n2", cfg := c1Cfg, authority := false, epoch := 3, clock := 10,
    seq := 5, log := [], dedup := [], authorityID := "n1", eng := c1Eng, lastHeartbeat := 0 }

def c1Act : Action :=
  { id := "x", type := ActionType.check, playerID := "a", amount := 0, meta := [] }

/-- C1 counterexample.  A stale commit (msg.seq = 3 ≤ self.seq = 5)
carrying a fresh action id is NOT silently dropped: the replica emits a
`state_query` message. -/
theorem applyCommit_stale_emits_query :
    c1Act.id ∉ c1Tbl.dedup ∧ (3 : Nat) ≤ c1Tbl.seq ∧
    (applyCommit c1Env c1Tbl c1Act 3).2 ≠ [] ∧
    ((applyCommit c1Env c1Tbl c1Act 3).2.map (fun m => m.type)) = [MsgType.stateQuery] := by
  decide

theorem applyCommit_cases_witness :
    applyCommit c1Env c1Tbl c1Act 6 =
      ({ c1Tbl with
          seq := 6
          eng := applyEngFollower c1Env c1Tbl.cfg c1Act c1Tbl.eng
          log := c1Tbl.log ++ [c1Act]
          dedup := c1Act.id :: c1Tbl.dedup }, []) :=
  (applyCommit_cases c1Env c1Tbl c1Act 6).2.1 (by decide) rfl rfl

theorem chip_conservation_witness :
    0 ≤ c2Start.smallBlind ∧ 0 ≤ c2Start.bigBlind ∧
    StartHand c2Start c2Deck = (c2s0, none) ∧
    sumStacks c2ws1 + c2ws1.pot = sumStacks c2Start :=
  ⟨by decide, by decide, by decide,
    chip_conservation c2Start c2s0 c2Deck [HandOp.call "a"] c2ws1 (by decide) (by decide)
      (by decide)
      (SafeRun.cons (by decide) (fun h => absurd h (by decide)) (SafeRun.nil _))⟩

theorem epoch_commitShowdown (t : Table) (id : String) :
    (commitShowdown t id).1.epoch = t.epoch := by
  unfold commitShowdown
  split_ifs <;> rfl

theorem epoch_commitAdvance (t : Table) (idAdv idShow : String) :
    (commitAdvance t idAdv idShow).1.epoch = t.epoch := by
  unfold commitAdvance
  dsimp only
  split_ifs <;> first | rfl | (dsimp only; rw [epoch_commitShowdown])

theorem epoch_afterApply (env : Env) (t : Table) (r : State × Option String) :
    (afterApply env t r).1.epoch = t.epoch := by
  unfold afterApply
  cases hr : r.2 with
  | some e => rfl
  | none =>
    dsimp only
    split_ifs with h
    · rw [epoch_commitAdvance]
    · rfl

theorem epoch_applyA (env : Env) (t : Table) (a : Action) :
    (applyA env t a).1.epoch = t.epoch := by
  obtain ⟨aid, ty, pid, amt, meta⟩ := a
  cases ty
  case advance =>
    unfold applyA
    dsimp only
    split_ifs with h
    · rw [epoch_commitShowdown]
    · rfl
  case join =>
    unfold applyA
    dsimp only
    split_ifs with h
    · rfl
    · rw [epoch_afterApply]
  all_goals (unfold applyA; rw [epoch_afterApply])

theorem epoch_commitAndBroadcast (env : Env) (t : Table) (a : Action) :
    (commitAndBroadcast env t a).1.epoch = t.epoch := by
  unfold commitAndBroadcast
  split_ifs with h
  · rfl
  · dsimp only
    rw [epoch_applyA]

theorem epoch_applyCommit (env : Env) (t : Table) (a : Action) (sq : Nat) :
    (applyCommit env t a sq).1.epoch = t.epoch := by
  unfold applyCommit
  split_ifs with h1 h2
  · rfl
  · rfl
  · dsimp only
    rw [epoch_applyA]

theorem epoch_sendSnapshotTo (t : Table) : (sendSnapshotTo t).1.epoch = t.epoch := by
  unfold sendSnapshotTo
  split_ifs <;> rfl

theorem epoch_sendHeartbeat (t : Table) : (sendHeartbeat t).1.epoch = t.epoch := by
  unfold sendHeartbeat
  split_ifs <;> rfl

/-- C4 (amended).  A replica's epoch never decreases across any inbound
message step (propose, commit, heartbeat, state_query) or an authority
takeover, PROVIDED every accepted snapshot payload carries an epoch at
least the replica's: `installSnapshot` adopts the *payload* epoch while
the acceptance guard checks only the *envelope* epoch, so a snapshot
whose envelope passes the guard but whose payload carries a smaller
epoch regresses the replica (see the counterexample).  All snapshots
this system emits put the same epoch in both places, so the hypothesis
holds on self-generated traffic. -/
theorem epoch_monotonic (env : Env) (t : Table) (m : NetMessage)
    (hsnap : ∀ ss, m.type = MsgType.snapshot → m.state = some ss → t.epoch ≤ ss.epoch) :
    t.epoch ≤ (onNet env t m).1.epoch ∧
    ∀ now, t.epoch ≤ (tryAuthorityTakeover t now).1.epoch := by
  constructor
  · obtain ⟨mtab, msend, mty, mep, mlam, msq, mact, mst⟩ := m
    cases mty
    case propose =>
      unfold onNet
      dsimp only
      split_ifs with h1
      · exact Nat.le_refl _
      · cases mact with
        | none => exact Nat.le_refl _
        | some a =>
          dsimp only
          split_ifs with h2
          · exact Nat.le_refl _
          · rw [epoch_commitAndBroadcast]
    case commit =>
      unfold onNet
      dsimp only
      cases mact with
      | none => exact Nat.le_refl _
      | some a =>
        dsimp only
        split_ifs with h1 h2 h3
        · exact Nat.le_refl _
        · exact Nat.le_refl _
        · dsimp only
          omega
        · dsimp only
          rw [epoch_applyCommit]
    case snapshot =>
      unfold onNet
      dsimp only
      cases hst : mst with
      | none => exact Nat.le_refl _
      | some ss =>
        dsimp only
        split_ifs with h1
        · exact Nat.le_refl _
        · dsimp only [installSnapshot]
          exact hsnap ss rfl hst
    case heartbeat =>
      unfold onNet
      dsimp only
      split_ifs with h1
      · exact Nat.le_refl _
      · dsimp only
        omega
    case stateQuery =>
      unfold onNet
      dsimp only
      split_ifs with h1
      · rw [epoch_sendSnapshotTo]
      · exact Nat.le_refl _
  · intro now
    unfold tryAuthorityTakeover
    split_ifs with h1 h2 h3
    · exact Nat.le_refl _
    · exact Nat.le_refl _
    · exact Nat.le_refl _
    · dsimp only
      rw [epoch_sendSnapshotTo, epoch_sendHeartbeat]
      dsimp only
      omega

def c4Env : Env := { deckOf := fun _ => [], advId := "a4", showId := "s4", now := 7 }

def c4Tbl : Table :=
  { id := "tbl", self := "n3", cfg := c1Cfg, authority := false, epoch := 3, clock := 0,
    seq := 2, log := [], dedup := [], authorityID := "n1", eng := c1Eng, lastHeartbeat := 0 }

/-- A snapshot whose envelope epoch (5) passes the acceptance guard but
whose payload epoch is 1. -/
def c4Snap : TableSnapshot :=
  { cfg := c1Cfg, seq := 9, epoch := 1, authority := "n1", engine := none }

def c4Msg : NetMessage :=
  { table := "tbl", sender := "n1", type := MsgType.snapshot, epoch := 5, lamport := 0,
    seq := 0, action := none, state := some c4Snap }

/-- C4 counterexample.  The replica sits at epoch 3; the snapshot
message's envelope epoch 5 is accepted, but `installSnapshot` copies the
payload epoch, leaving the replica at epoch 1 < 3: an epoch regression
inside a single accepted step. -/
theorem epoch_can_regress_on_snapshot :
    c4Tbl.epoch = 3 ∧ ¬ c4Msg.epoch < c4Tbl.epoch ∧
    (onNet c4Env c4Tbl c4Msg).1.epoch = 1 := by decide

def c4Hb : NetMessage :=
  { table := "tbl", sender := "n1", type := MsgType.heartbeat, epoch := 7, lamport := 2,
    seq := 0, action := none, state := none }

theorem epoch_monotonic_witness :
    c4Tbl.epoch ≤ (onNet c4Env c4Tbl c4Hb).1.epoch ∧
    ∀ now, c4Tbl.epoch ≤ (tryAuthorityTakeover c4Tbl now).1.epoch :=
  epoch_monotonic c4Env c4Tbl c4Hb (fun ss hty _ => absurd hty (by decide))

end PP
